import Mathlib

/-!
Verification development for a small TCP command/response system
(`server` and `client` crates).  The server accepts connections, performs
an `OnConnect` handshake, drives a fixed sequence of move commands, and
records each client's last reported state in a shared registry guarded by
a mutex.  Messages travel as length-prefixed JSON frames.

The embedding below models:
  * the message data model (`Point`, client and server envelopes),
    with `f64` coordinates represented by their serialized decimal
    literals (`JNum`) — the code never performs arithmetic on positions,
    it only copies them, and `serde_json` round-trips every finite `f64`
    through its canonical decimal literal;
  * the client registry (`HashMap` behind a mutex) as a finite map,
    with lock acquire/release made explicit in the handler's event trace;
  * `TcpServer::handle_client` and `Client::run` as functions from the
    list of frames arriving on the stream to an event trace, a final
    registry, and an exit status;
  * the wire codec (`wrap_stream`: `LengthDelimitedCodec` + `Json`) as a
    JSON printer/parser over characters plus a 4-byte big-endian length
    prefix with the codec's 8 MiB frame cap.
-/

/-- Nonempty digit sequence: the digits of an integer part or exponent of
a JSON number literal. -/
structure Digits where
  first : Fin 10
  rest : List (Fin 10)
deriving DecidableEq, Repr

/-- A finite `f64` as serialized by `serde_json`: an optional sign, an
integer part, an optional fraction part (empty list = absent), and an
optional exponent.  Structural equality on `JNum` models `f64` equality
of the decoded values, since the canonical shortest literal of a finite
double is unique. -/
structure JNum where
  neg : Bool
  intPart : Digits
  frac : List (Fin 10)
  exp : Option (Bool × Digits)
deriving DecidableEq, Repr

/-- Mirrors `struct Point { x: f64, y: f64, z: f64 }` in `server/src/lib.rs`. -/
structure Point where
  x : JNum
  y : JNum
  z : JNum
deriving DecidableEq, Repr

/-- The literal `0.0` (what `serde_json` prints for the `f64` zero). -/
def jzero : JNum := { neg := false, intPart := ⟨0, []⟩, frac := [0], exp := none }

/-- The literal `0.d` for a single fraction digit `d`. -/
def jdec (d : Fin 10) : JNum := { neg := false, intPart := ⟨0, []⟩, frac := [d], exp := none }

/-- Mirrors `struct ClientFailed { server_command: String, current_position: Point }`. -/
structure ClientFailed where
  server_command : String
  current_position : Point
deriving DecidableEq, Repr

/-- Mirrors `struct ClientOnConnect { client_name, message, current_position }`. -/
structure ClientOnConnect where
  client_name : String
  message : String
  current_position : Point
deriving DecidableEq, Repr

/-- Mirrors `struct ClientCommandResponse { message, current_position }`. -/
structure ClientCommandResponse where
  message : String
  current_position : Point
deriving DecidableEq, Repr

/-- Mirrors `enum ClientMessage` in `server/src/lib.rs`: the client→server
envelope. -/
inductive ClientMessage where
  | ClientOnConnect (c : ClientOnConnect)
  | ClientCommandResponse (c : ClientCommandResponse)
  | Failed (c : ClientFailed)
deriving DecidableEq, Repr

/-- Mirrors `struct ServerOnConnect { client_name, message }`. -/
structure ServerOnConnect where
  client_name : String
  message : String
deriving DecidableEq, Repr

/-- Mirrors `enum ServerMessage` in `server/src/lib.rs`: the server→client
envelope. -/
inductive ServerMessage where
  | OnConnect (s : ServerOnConnect)
  | ServerMoveCommand (p : Point)
  | ServerFailed (reason : String)
deriving DecidableEq, Repr

/-- Mirrors `struct ClientState { last_message: String, current_position: Point }`. -/
structure ClientState where
  last_message : String
  current_position : Point
deriving DecidableEq, Repr

/-- Mirrors `impl From<ClientOnConnect> for ClientState`. -/
def ClientState.ofOnConnect (m : ClientOnConnect) : ClientState :=
  { last_message := m.message, current_position := m.current_position }

/-- Mirrors `impl From<ClientCommandResponse> for ClientState`. -/
def ClientState.ofCommandResponse (m : ClientCommandResponse) : ClientState :=
  { last_message := m.message, current_position := m.current_position }

/-- Mirrors `impl From<ClientFailed> for ClientState`: `last_message` is
taken from the `server_command` field. -/
def ClientState.ofFailed (m : ClientFailed) : ClientState :=
  { last_message := m.server_command, current_position := m.current_position }

/-- Projection of any client envelope into the registry value, dispatching
to the three `From` impls exactly as the `.into()` calls in
`handle_client` do. -/
def stateOfMsg : ClientMessage → ClientState
  | .ClientOnConnect c => ClientState.ofOnConnect c
  | .ClientCommandResponse c => ClientState.ofCommandResponse c
  | .Failed c => ClientState.ofFailed c

/-- Semantic model of the `ClientStore` hash map
(`Arc<Mutex<HashMap<String, ClientState>>>`): identifiers to states. -/
def Registry : Type := String → Option ClientState

/-- The empty registry (`Default::default()` in `TcpBuilder::from_env`). -/
def Registry.empty : Registry := fun _ => none

/-- Model of `HashMap::insert`: the new value completely replaces any
prior binding for the key. -/
def Registry.upsert (r : Registry) (id : String) (s : ClientState) : Registry :=
  fun k => if k = id then some s else r k

/-- Model of `HashMap::get`: look the identifier up, returning a snapshot. -/
def Registry.get (r : Registry) (id : String) : Option ClientState := r id

/-- One item produced by the framed read half of the stream: either a
decoded client envelope (`Ok`) or a frame/deserialization failure (`Err`).
Stream closure is modeled by the input list running out. -/
inductive StreamItem where
  | msg (m : ClientMessage)
  | decodeErr
deriving DecidableEq, Repr

/-- How `handle_client` terminates, one constructor per `panic!`/`Err`
site in the source plus `ok` for `Ok(())`. -/
inductive HandlerExit where
  | ok
  | panicConnectionNotSet
  | panicParsePong
  | errNoNextMessage
  | errParseNext
  | errWrongMessage
  | errClientFailed
  | errNoClientInStore
deriving DecidableEq, Repr

/-- Observable events of a connection handler, in program order: stream
reads and writes, and the mutex/map operations on the shared registry. -/
inductive Event where
  | lockAcquire
  | lockRelease
  | regInsert (id : String) (s : ClientState)
  | regGet (id : String) (found : Option ClientState)
  | send (m : ServerMessage)
  | recv (item : StreamItem)
  | recvEnd
deriving DecidableEq, Repr

/-- The hardcoded `movements` vector in `handle_client`:
`(0,0,0) (0,0,0.2) (0,0,0.4) (0,0,0.6)`. -/
def movements : List Point :=
  [ { x := jzero, y := jzero, z := jzero },
    { x := jzero, y := jzero, z := jdec 2 },
    { x := jzero, y := jzero, z := jdec 4 },
    { x := jzero, y := jzero, z := jdec 6 } ]

/-- The `for point in movements` loop of `handle_client`, followed by the
final registry lookup and report.  Arguments: remaining command points,
remaining stream input, current registry, and `current_client`.  Returns
the emitted event trace, the final registry, and the exit status. -/
def commandLoop : List Point → List StreamItem → Registry → String →
    List Event × Registry × HandlerExit
  | [], _, reg, cc =>
      ([Event.lockAcquire, Event.regGet cc (reg.get cc), Event.lockRelease],
       reg,
       match reg.get cc with
       | some _ => HandlerExit.ok
       | none => HandlerExit.errNoClientInStore)
  | p :: ps, inputs, reg, cc =>
      let sendEv := Event.send (ServerMessage.ServerMoveCommand p)
      match inputs with
      | [] => ([sendEv, Event.recvEnd], reg, HandlerExit.errNoNextMessage)
      | StreamItem.decodeErr :: _ =>
          ([sendEv, Event.recv StreamItem.decodeErr], reg, HandlerExit.errParseNext)
      | StreamItem.msg m :: rest =>
          match m with
          | ClientMessage.ClientOnConnect _ =>
              ([sendEv, Event.recv (StreamItem.msg m)], reg, HandlerExit.errWrongMessage)
          | ClientMessage.ClientCommandResponse c =>
              let st := ClientState.ofCommandResponse c
              let next := commandLoop ps rest (reg.upsert cc st) cc
              (sendEv :: Event.recv (StreamItem.msg m) :: Event.lockAcquire ::
                 Event.regInsert cc st :: Event.lockRelease :: next.1,
               next.2.1, next.2.2)
          | ClientMessage.Failed c =>
              let st := ClientState.ofFailed c
              ([sendEv, Event.recv (StreamItem.msg m), Event.lockAcquire,
                Event.regInsert cc st, Event.lockRelease],
               reg.upsert cc st, HandlerExit.errClientFailed)

/-- Model of `TcpServer::handle_client`: reads the first frame (panicking
on closure or decode failure), runs the `if let ClientOnConnect` handshake
— note the source has no `else` branch, so a non-`OnConnect` first message
falls through with `current_client` still the empty string — and then the
command loop over `movements`. -/
def handleClient (inputs : List StreamItem) (reg : Registry) :
    List Event × Registry × HandlerExit :=
  match inputs with
  | [] => ([Event.recvEnd], reg, HandlerExit.panicConnectionNotSet)
  | StreamItem.decodeErr :: _ =>
      ([Event.recv StreamItem.decodeErr], reg, HandlerExit.panicParsePong)
  | StreamItem.msg m :: rest =>
      match m with
      | ClientMessage.ClientOnConnect c =>
          let cc := c.client_name
          let st := ClientState.ofOnConnect c
          let ack := ServerMessage.OnConnect { client_name := cc, message := "hello" }
          let next := commandLoop movements rest (reg.upsert cc st) cc
          (Event.recv (StreamItem.msg m) :: Event.lockAcquire :: Event.regInsert cc st ::
             Event.lockRelease :: Event.send ack :: next.1,
           next.2.1, next.2.2)
      | _ =>
          let next := commandLoop movements rest reg ""
          (Event.recv (StreamItem.msg m) :: next.1, next.2.1, next.2.2)

/-- One item on the client's framed read half: a decoded server envelope
or a decode failure. -/
inductive ServerItem where
  | msg (m : ServerMessage)
  | decodeErr
deriving DecidableEq, Repr

/-- How `Client::run` terminates; the command loop only exits through an
error, so there is no `ok` constructor. -/
inductive ClientExit where
  | errConnectFailed
  | errNoNextMessage
  | errParseNext
  | errWrongMessage
  | errServerFailed
deriving DecidableEq, Repr

/-- The client's command loop in `Client::run`: on `ServerMoveCommand p`
it calls `Agent::update_position` (which overwrites `current_position`
with `p`) and replies `ClientCommandResponse { message: "success",
current_position }`; any `OnConnect` is a protocol error; `ServerFailed`
ends the session. -/
def clientLoop : Point → List ServerItem → List ClientMessage × Point × ClientExit
  | pos, [] => ([], pos, ClientExit.errNoNextMessage)
  | pos, ServerItem.decodeErr :: _ => ([], pos, ClientExit.errParseNext)
  | pos, ServerItem.msg m :: rest =>
      match m with
      | ServerMessage.OnConnect _ => ([], pos, ClientExit.errWrongMessage)
      | ServerMessage.ServerMoveCommand p =>
          let reply := ClientMessage.ClientCommandResponse
            { message := "success", current_position := p }
          let next := clientLoop p rest
          (reply :: next.1, next.2.1, next.2.2)
      | ServerMessage.ServerFailed _ => ([], pos, ClientExit.errServerFailed)

/-- Model of `Client::run` after the TCP connect: send `ClientOnConnect`
with the configured name, the fixed greeting and the agent's position,
await the server's `OnConnect` ack, then enter the command loop. -/
def clientRun (name : String) (startPos : Point) (inputs : List ServerItem) :
    List ClientMessage × Point × ClientExit :=
  let hello := ClientMessage.ClientOnConnect
    { client_name := name, message := "hello", current_position := startPos }
  match inputs with
  | [] => ([hello], startPos, ClientExit.errNoNextMessage)
  | ServerItem.decodeErr :: _ => ([hello], startPos, ClientExit.errParseNext)
  | ServerItem.msg m :: rest =>
      match m with
      | ServerMessage.OnConnect _ =>
          let next := clientLoop startPos rest
          (hello :: next.1, next.2.1, next.2.2)
      | _ => ([hello], startPos, ClientExit.errWrongMessage)

/-- The targets of the `ServerMoveCommand` envelopes written in a trace,
in order. -/
def movesIn (l : List Event) : List Point :=
  l.filterMap fun e =>
    match e with
    | Event.send (ServerMessage.ServerMoveCommand p) => some p
    | _ => none

/-- Number of frames consumed from the stream in a trace. -/
def recvsIn (l : List Event) : Nat :=
  (l.filter fun e =>
    match e with
    | Event.recv _ => true
    | _ => false).length

/-- Scanner for the request/response alternation: `d` counts move
commands sent whose response has not yet been consumed.  A new
`ServerMoveCommand` may only be written while `d = 0`, i.e. after the
response to every previously written command has been read. -/
def altCheck : Nat → List Event → Bool
  | _, [] => true
  | d, e :: rest =>
      match e with
      | Event.send (ServerMessage.ServerMoveCommand _) =>
          decide (d = 0) && altCheck (d + 1) rest
      | Event.recv _ => altCheck (d - 1) rest
      | _ => altCheck d rest

/-- Scanner for the lock discipline: `d` is the current lock depth.
While the registry mutex is held, only map operations may appear; every
stream send or receive must happen at depth `0`, i.e. with the lock
released. -/
def lockCheck : Nat → List Event → Bool
  | _, [] => true
  | d, e :: rest =>
      match e with
      | Event.lockAcquire => lockCheck (d + 1) rest
      | Event.lockRelease => decide (0 < d) && lockCheck (d - 1) rest
      | Event.regInsert _ _ => lockCheck d rest
      | Event.regGet _ _ => lockCheck d rest
      | _ => decide (d = 0) && lockCheck d rest

/-- Variant check on a client envelope, used to state what happens when
the first frame is not the handshake variant. -/
def isOnConnectMsg : ClientMessage → Bool
  | ClientMessage.ClientOnConnect _ => true
  | _ => false

/-- Check for the `Failed` variant of the client envelope. -/
def isFailedMsg : ClientMessage → Bool
  | ClientMessage.Failed _ => true
  | _ => false

/-- Wrap a command response as the stream item carrying it. -/
def respItem (r : ClientCommandResponse) : StreamItem :=
  StreamItem.msg (ClientMessage.ClientCommandResponse r)

/-- The maximal leading run of `ServerMoveCommand` targets in the
client's input: the commands the client's loop answers before hitting
stream end, a decode failure, or a non-command envelope. -/
def movePrefixTargets : List ServerItem → List Point
  | ServerItem.msg (ServerMessage.ServerMoveCommand p) :: rest =>
      p :: movePrefixTargets rest
  | _ => []

/-- The reply the client's loop produces for a `ServerMoveCommand` with
the given target. -/
def successReply (p : Point) : ClientMessage :=
  ClientMessage.ClientCommandResponse { message := "success", current_position := p }

/-- The origin position `(0,0,0)` (`Point::default()`). -/
def pOrigin : Point := { x := jzero, y := jzero, z := jzero }

/-- The scripted responses of a fully successful session: the reference
client answers each of the four `movements` with `successReply`. -/
def scenarioResponses : List StreamItem :=
  movements.map fun p => StreamItem.msg (successReply p)

/-- Input stream of the end-to-end scenario: `agent-1` connects from the
origin and answers every command successfully. -/
def scenarioInputs : List StreamItem :=
  StreamItem.msg (ClientMessage.ClientOnConnect
    { client_name := "agent-1", message := "hello", current_position := pOrigin })
    :: scenarioResponses

/-- Run of `handle_client` on the end-to-end scenario, starting from an
empty registry. -/
def scenarioOut : List Event × Registry × HandlerExit :=
  handleClient scenarioInputs Registry.empty

mutual

/-- JSON document tree, the payload format of `tokio_serde`'s `Json`
codec (`serde_json`).  Numbers carry the decimal literal (`JNum`);
arrays and objects are represented by the mutual types below. -/
inductive Json where
  | jnull
  | jbool (b : Bool)
  | jnum (n : JNum)
  | jstr (s : String)
  | jarr (xs : JList)
  | jobj (fs : JFields)

/-- List of JSON values (array elements). -/
inductive JList where
  | nil
  | cons (hd : Json) (tl : JList)

/-- Ordered object members. -/
inductive JFields where
  | fnil
  | fcons (k : String) (v : Json) (tl : JFields)

end

/-- Double-quote character. -/
def dq : Char := Char.ofNat 34

/-- Backslash character. -/
def bs : Char := Char.ofNat 92

/-- Opening curly bracket character. -/
def obr : Char := Char.ofNat 123

/-- Closing curly bracket character. -/
def cbr : Char := Char.ofNat 125

/-- Decimal digit character for a digit value. -/
def digCh (d : Fin 10) : Char := Char.ofNat (48 + d.val)

/-- Lowercase hexadecimal digit character for a value below 16. -/
def hexCh (n : Nat) : Char :=
  if n < 10 then Char.ofNat (48 + n) else Char.ofNat (87 + n)

/-- Escaping of one character inside a JSON string, as `serde_json`
emits it: quote and backslash get a backslash escape, control characters
become `\u00XX`, everything else is written verbatim. -/
def escChar (c : Char) : List Char :=
  if c = dq then [bs, dq]
  else if c = bs then [bs, bs]
  else if c.toNat < 32 then
    [bs, 'u', '0', '0', hexCh (c.toNat / 16), hexCh (c.toNat % 16)]
  else [c]

/-- Escaped body of a JSON string. -/
def escStr (s : List Char) : List Char := (s.map escChar).flatten

/-- Characters of a nonempty digit run. -/
def digitsChars (d : Digits) : List Char := digCh d.first :: d.rest.map digCh

/-- Serialization of a number literal: sign, integer digits, optional
fraction, optional exponent. -/
def printNum (n : JNum) : List Char :=
  (if n.neg then ['-'] else []) ++ digitsChars n.intPart ++
    (match n.frac with
     | [] => []
     | f => '.' :: f.map digCh) ++
    (match n.exp with
     | none => []
     | some (sgn, ds) => 'e' :: ((if sgn then ['-'] else []) ++ digitsChars ds))

mutual

/-- Compact serialization of a JSON value (no whitespace), as
`serde_json::to_vec` produces it. -/
def printJson : Json → List Char
  | Json.jnull => ['n', 'u', 'l', 'l']
  | Json.jbool true => ['t', 'r', 'u', 'e']
  | Json.jbool false => ['f', 'a', 'l', 's', 'e']
  | Json.jnum n => printNum n
  | Json.jstr s => dq :: (escStr s.data ++ [dq])
  | Json.jarr xs => '[' :: printElems xs
  | Json.jobj fs => obr :: printMembers fs

/-- Array elements after the opening bracket, including the closing
bracket. -/
def printElems : JList → List Char
  | JList.nil => [']']
  | JList.cons v JList.nil => printJson v ++ [']']
  | JList.cons v tl => printJson v ++ ',' :: printElems tl

/-- Object members after the opening bracket, including the closing
bracket. -/
def printMembers : JFields → List Char
  | JFields.fnil => [cbr]
  | JFields.fcons k v JFields.fnil => dq :: (escStr k.data ++ dq :: ':' :: (printJson v ++ [cbr]))
  | JFields.fcons k v tl => dq :: (escStr k.data ++ dq :: ':' :: (printJson v ++ ',' :: printMembers tl))

end

/-- Value of a decimal digit character. -/
def digVal (c : Char) : Option (Fin 10) :=
  if h : 48 ≤ c.toNat ∧ c.toNat < 58 then some ⟨c.toNat - 48, by omega⟩ else none

/-- Value of a hexadecimal digit character (both cases accepted). -/
def hexVal (c : Char) : Option Nat :=
  if 48 ≤ c.toNat ∧ c.toNat < 58 then some (c.toNat - 48)
  else if 97 ≤ c.toNat ∧ c.toNat < 103 then some (c.toNat - 87)
  else if 65 ≤ c.toNat ∧ c.toNat < 71 then some (c.toNat - 55)
  else none

/-- Longest leading run of decimal digits of the input, with the rest. -/
def takeDigits : List Char → List (Fin 10) × List Char
  | [] => ([], [])
  | c :: rest =>
      match digVal c with
      | some d =>
          let next := takeDigits rest
          (d :: next.1, next.2)
      | none => ([], c :: rest)

/-- Construct a character from a code point when it is a valid scalar
value. -/
def charOfCode (n : Nat) : Option Char :=
  if _h : n.isValidChar then some (Char.ofNat n) else none

/-- Parse the body of a JSON string after the opening quote, up to and
including the closing quote, resolving escapes. -/
def parseStrBody : List Char → Option (List Char × List Char)
  | [] => none
  | c :: rest =>
      if c = dq then some ([], rest)
      else if c = bs then
        match rest with
        | [] => none
        | e :: rest' =>
            if e = dq then (parseStrBody rest').map fun r => (dq :: r.1, r.2)
            else if e = bs then (parseStrBody rest').map fun r => (bs :: r.1, r.2)
            else if e = '/' then (parseStrBody rest').map fun r => ('/' :: r.1, r.2)
            else if e = 'b' then (parseStrBody rest').map fun r => (Char.ofNat 8 :: r.1, r.2)
            else if e = 'f' then (parseStrBody rest').map fun r => (Char.ofNat 12 :: r.1, r.2)
            else if e = 'n' then (parseStrBody rest').map fun r => (Char.ofNat 10 :: r.1, r.2)
            else if e = 'r' then (parseStrBody rest').map fun r => (Char.ofNat 13 :: r.1, r.2)
            else if e = 't' then (parseStrBody rest').map fun r => (Char.ofNat 9 :: r.1, r.2)
            else if e = 'u' then
              match rest' with
              | h1 :: h2 :: h3 :: h4 :: rest'' =>
                  match hexVal h1, hexVal h2, hexVal h3, hexVal h4 with
                  | some a, some b, some c', some d =>
                      match charOfCode (((a * 16 + b) * 16 + c') * 16 + d) with
                      | some ch => (parseStrBody rest'').map fun r => (ch :: r.1, r.2)
                      | none => none
                  | _, _, _, _ => none
              | _ => none
            else none
      else (parseStrBody rest).map fun r => (c :: r.1, r.2)

/-- Optional leading minus sign of a number. -/
def parseIntSign (input : List Char) : Bool × List Char :=
  match input with
  | c :: rest => if c = '-' then (true, rest) else (false, input)
  | [] => (false, input)

/-- Optional sign of an exponent (`-` or `+`). -/
def parseExpSign (input : List Char) : Bool × List Char :=
  match input with
  | c :: rest =>
      if c = '-' then (true, rest)
      else if c = '+' then (false, rest)
      else (false, input)
  | [] => (false, input)

/-- One or more digits. -/
def parseDigits1 (input : List Char) : Option (Digits × List Char) :=
  match takeDigits input with
  | ([], _) => none
  | (d :: ds, rest) => some (⟨d, ds⟩, rest)

/-- Optional fraction part: a dot followed by one or more digits. -/
def parseFracOpt (input : List Char) : Option (List (Fin 10) × List Char) :=
  match input with
  | c :: rest =>
      if c = '.' then
        match takeDigits rest with
        | ([], _) => none
        | (f :: fs, r) => some (f :: fs, r)
      else some ([], input)
  | [] => some ([], input)

/-- Optional exponent: `e`/`E`, an optional sign, one or more digits. -/
def parseExpOpt (input : List Char) : Option (Option (Bool × Digits) × List Char) :=
  match input with
  | c :: rest =>
      if c = 'e' ∨ c = 'E' then
        match parseDigits1 (parseExpSign rest).2 with
        | none => none
        | some (ds, r) => some (some ((parseExpSign rest).1, ds), r)
      else some (none, input)
  | [] => some (none, input)

/-- Parse a JSON number starting at the current position (first character
is a digit or a minus sign). -/
def parseNum (input : List Char) : Option (JNum × List Char) :=
  match parseDigits1 (parseIntSign input).2 with
  | none => none
  | some (ip, rest2) =>
      match parseFracOpt rest2 with
      | none => none
      | some (frac, rest4) =>
          match parseExpOpt rest4 with
          | none => none
          | some (ex, rest8) =>
              some ({ neg := (parseIntSign input).1, intPart := ip,
                      frac := frac, exp := ex }, rest8)

mutual

/-- Fueled recursive-descent parser for a JSON value; returns the value
and the unconsumed suffix. -/
def parseVal : Nat → List Char → Option (Json × List Char)
  | 0, _ => none
  | _ + 1, [] => none
  | fuel + 1, c :: rest =>
      if c = 'n' then
        match rest with
        | 'u' :: 'l' :: 'l' :: r => some (Json.jnull, r)
        | _ => none
      else if c = 't' then
        match rest with
        | 'r' :: 'u' :: 'e' :: r => some (Json.jbool true, r)
        | _ => none
      else if c = 'f' then
        match rest with
        | 'a' :: 'l' :: 's' :: 'e' :: r => some (Json.jbool false, r)
        | _ => none
      else if c = dq then
        (parseStrBody rest).map fun r => (Json.jstr ⟨r.1⟩, r.2)
      else if c = '[' then
        match rest with
        | ']' :: r => some (Json.jarr JList.nil, r)
        | _ => (parseElems fuel rest).map fun r => (Json.jarr r.1, r.2)
      else if c = obr then
        match rest with
        | r0 :: r =>
            if r0 = cbr then some (Json.jobj JFields.fnil, r)
            else (parseMembers fuel (r0 :: r)).map fun r' => (Json.jobj r'.1, r'.2)
        | [] => none
      else if c = '-' ∨ (digVal c).isSome then
        (parseNum (c :: rest)).map fun r => (Json.jnum r.1, r.2)
      else none

/-- Parse one or more comma-separated array elements followed by the
closing bracket. -/
def parseElems : Nat → List Char → Option (JList × List Char)
  | 0, _ => none
  | fuel + 1, input =>
      match parseVal fuel input with
      | none => none
      | some (v, rest) =>
          match rest with
          | ']' :: r => some (JList.cons v JList.nil, r)
          | ',' :: r =>
              (parseElems fuel r).map fun r' => (JList.cons v r'.1, r'.2)
          | _ => none

/-- Parse one or more `"key":value` members followed by the closing
bracket. -/
def parseMembers : Nat → List Char → Option (JFields × List Char)
  | 0, _ => none
  | fuel + 1, input =>
      match input with
      | c :: rest =>
          if c = dq then
            match parseStrBody rest with
            | none => none
            | some (k, rest1) =>
                match rest1 with
                | ':' :: rest2 =>
                    match parseVal fuel rest2 with
                    | none => none
                    | some (v, rest3) =>
                        match rest3 with
                        | r0 :: r =>
                            if r0 = cbr then some (JFields.fcons ⟨k⟩ v JFields.fnil, r)
                            else if r0 = ',' then
                              (parseMembers fuel r).map fun r' =>
                                (JFields.fcons ⟨k⟩ v r'.1, r'.2)
                            else none
                        | [] => none
                | _ => none
          else none
      | [] => none

end

mutual

/-- Parser budget certified to suffice for a value: every recursive
descent step consumes one unit. -/
def jweight : Json → Nat
  | Json.jnull => 1
  | Json.jbool _ => 1
  | Json.jnum _ => 1
  | Json.jstr _ => 1
  | Json.jarr xs => 1 + lweight xs
  | Json.jobj fs => 1 + fweight fs

/-- Budget for array elements. -/
def lweight : JList → Nat
  | JList.nil => 1
  | JList.cons v tl => 1 + jweight v + lweight tl

/-- Budget for object members. -/
def fweight : JFields → Nat
  | JFields.fnil => 1
  | JFields.fcons _ v tl => 1 + jweight v + fweight tl

end

/-- JSON serialization of a `Point`, as `#[derive(Serialize)]` produces
it: an object with the fields in declaration order. -/
def Point.toJson (p : Point) : Json :=
  Json.jobj (JFields.fcons "x" (Json.jnum p.x)
    (JFields.fcons "y" (Json.jnum p.y)
      (JFields.fcons "z" (Json.jnum p.z) JFields.fnil)))

/-- JSON serialization of the client→server envelope: serde's externally
tagged enum representation, a single-member object whose key is the
variant name. -/
def ClientMessage.toJson : ClientMessage → Json
  | ClientMessage.ClientOnConnect c =>
      Json.jobj (JFields.fcons "ClientOnConnect"
        (Json.jobj (JFields.fcons "client_name" (Json.jstr c.client_name)
          (JFields.fcons "message" (Json.jstr c.message)
            (JFields.fcons "current_position" c.current_position.toJson JFields.fnil))))
        JFields.fnil)
  | ClientMessage.ClientCommandResponse c =>
      Json.jobj (JFields.fcons "ClientCommandResponse"
        (Json.jobj (JFields.fcons "message" (Json.jstr c.message)
          (JFields.fcons "current_position" c.current_position.toJson JFields.fnil)))
        JFields.fnil)
  | ClientMessage.Failed c =>
      Json.jobj (JFields.fcons "Failed"
        (Json.jobj (JFields.fcons "server_command" (Json.jstr c.server_command)
          (JFields.fcons "current_position" c.current_position.toJson JFields.fnil)))
        JFields.fnil)

/-- JSON serialization of the server→client envelope (externally tagged;
`ServerMoveCommand` is a newtype variant around `Point`, `ServerFailed`
around a string). -/
def ServerMessage.toJson : ServerMessage → Json
  | ServerMessage.OnConnect s =>
      Json.jobj (JFields.fcons "OnConnect"
        (Json.jobj (JFields.fcons "client_name" (Json.jstr s.client_name)
          (JFields.fcons "message" (Json.jstr s.message) JFields.fnil)))
        JFields.fnil)
  | ServerMessage.ServerMoveCommand p =>
      Json.jobj (JFields.fcons "ServerMoveCommand" p.toJson JFields.fnil)
  | ServerMessage.ServerFailed r =>
      Json.jobj (JFields.fcons "ServerFailed" (Json.jstr r) JFields.fnil)

/-- Field lookup in an object, first binding wins (the derived
deserializer accepts fields in any order). -/
def getField : JFields → String → Option Json
  | JFields.fnil, _ => none
  | JFields.fcons k v tl, key => if k = key then some v else getField tl key

/-- Deserialization of a `Point` from JSON: all three fields must be
present and numeric. -/
def Point.fromJson : Json → Option Point
  | Json.jobj fields =>
      match getField fields "x", getField fields "y", getField fields "z" with
      | some (Json.jnum x), some (Json.jnum y), some (Json.jnum z) =>
          some { x := x, y := y, z := z }
      | _, _, _ => none
  | _ => none

/-- Deserialization of the client→server envelope: a single-member
object whose key selects the variant. -/
def ClientMessage.fromJson : Json → Option ClientMessage
  | Json.jobj (JFields.fcons "ClientOnConnect" (Json.jobj fields) JFields.fnil) =>
      match getField fields "client_name", getField fields "message",
            (getField fields "current_position").bind Point.fromJson with
      | some (Json.jstr n), some (Json.jstr m), some p =>
          some (ClientMessage.ClientOnConnect
            { client_name := n, message := m, current_position := p })
      | _, _, _ => none
  | Json.jobj (JFields.fcons "ClientCommandResponse" (Json.jobj fields) JFields.fnil) =>
      match getField fields "message",
            (getField fields "current_position").bind Point.fromJson with
      | some (Json.jstr m), some p =>
          some (ClientMessage.ClientCommandResponse
            { message := m, current_position := p })
      | _, _ => none
  | Json.jobj (JFields.fcons "Failed" (Json.jobj fields) JFields.fnil) =>
      match getField fields "server_command",
            (getField fields "current_position").bind Point.fromJson with
      | some (Json.jstr m), some p =>
          some (ClientMessage.Failed
            { server_command := m, current_position := p })
      | _, _ => none
  | _ => none

/-- Deserialization of the server→client envelope. -/
def ServerMessage.fromJson : Json → Option ServerMessage
  | Json.jobj (JFields.fcons "OnConnect" (Json.jobj fields) JFields.fnil) =>
      match getField fields "client_name", getField fields "message" with
      | some (Json.jstr n), some (Json.jstr m) =>
          some (ServerMessage.OnConnect { client_name := n, message := m })
      | _, _ => none
  | Json.jobj (JFields.fcons "ServerMoveCommand" pj JFields.fnil) =>
      (Point.fromJson pj).map ServerMessage.ServerMoveCommand
  | Json.jobj (JFields.fcons "ServerFailed" (Json.jstr r) JFields.fnil) =>
      some (ServerMessage.ServerFailed r)
  | _ => none

/-- Default `max_frame_length` of `LengthDelimitedCodec`: 8 MiB.  Frames
longer than this are rejected by both the encoder and the decoder. -/
def maxFrameLen : Nat := 8 * 1024 * 1024

/-- Big-endian 4-byte length header written by `LengthDelimitedCodec`. -/
def be32 (n : Nat) : List Nat :=
  [n / 2 ^ 24 % 256, n / 2 ^ 16 % 256, n / 2 ^ 8 % 256, n % 256]

/-- Frame encoder: length header followed by the payload bytes (payload
characters are taken at their code points; the UTF-8 byte expansion is a
bijection on scalar values and is abstracted here).  Oversized payloads
are rejected, as `LengthDelimitedCodec`'s encoder rejects them. -/
def encodeFrame (payload : List Char) : Option (List Nat) :=
  if payload.length ≤ maxFrameLen then
    some (be32 payload.length ++ payload.map Char.toNat)
  else none

/-- Decode a byte sequence back into characters; fails on any byte that
is not a valid scalar value. -/
def charsOfCodes : List Nat → Option (List Char)
  | [] => some []
  | n :: rest =>
      match charOfCode n, charsOfCodes rest with
      | some c, some cs => some (c :: cs)
      | _, _ => none

/-- Frame decoder: reads the 4-byte header, rejects oversized lengths,
waits for the full span, and yields the payload characters plus the
remaining buffered bytes. -/
def decodeFrame (bytes : List Nat) : Option (List Char × List Nat) :=
  match bytes with
  | b0 :: b1 :: b2 :: b3 :: rest =>
      let n := ((b0 * 256 + b1) * 256 + b2) * 256 + b3
      if n ≤ maxFrameLen ∧ n ≤ rest.length then
        match charsOfCodes (rest.take n) with
        | some payload => some (payload, rest.drop n)
        | none => none
      else none
  | _ => none

/-- Full client-envelope encoder of the write half produced by
`wrap_stream`: serialize to JSON text, then frame it. -/
def encodeClientFrame (e : ClientMessage) : Option (List Nat) :=
  encodeFrame (printJson e.toJson)

/-- Full client-envelope decoder of the read half produced by
`wrap_stream`: unframe, parse the JSON payload (which must be consumed
entirely, as `serde_json::from_slice` requires), and decode the
envelope. -/
def decodeClientFrame (bytes : List Nat) : Option ClientMessage :=
  match decodeFrame bytes with
  | some (payload, _) =>
      match parseVal (2 * payload.length + 1) payload with
      | some (j, []) => ClientMessage.fromJson j
      | _ => none
  | none => none

/-- Server-envelope encoder of the codec (the direction written by the
server and read by the client). -/
def encodeServerFrame (e : ServerMessage) : Option (List Nat) :=
  encodeFrame (printJson e.toJson)

/-- Server-envelope decoder of the codec. -/
def decodeServerFrame (bytes : List Nat) : Option ServerMessage :=
  match decodeFrame bytes with
  | some (payload, _) =>
      match parseVal (2 * payload.length + 1) payload with
      | some (j, []) => ServerMessage.fromJson j
      | _ => none
  | none => none

/-- Check that the input does not begin with a character that could
extend a number token: after a complete number inside a JSON document
the next character is a separator (`,`), a closing bracket, or the end
of the payload, and all of these satisfy this check. -/
def afterNum (l : List Char) : Bool :=
  match l with
  | [] => true
  | c :: _ =>
      (digVal c).isNone && !(c == '.') && !(c == 'e') && !(c == 'E') &&
        !(c == '-') && !(c == '+')

/-- Check that the input does not begin with a decimal digit. -/
def headNotDigit (l : List Char) : Bool :=
  match l with
  | [] => true
  | c :: _ => (digVal c).isNone

theorem Registry.get_upsert (reg : Registry) (id : String) (s : ClientState) (k : String) :
    (reg.upsert id s).get k = if k = id then some s else reg.get k := rfl

theorem Registry.get_upsert_self (reg : Registry) (id : String) (s : ClientState) :
    (reg.upsert id s).get id = some s := by
  simp [Registry.get, Registry.upsert]

theorem commandLoop_preserves_key (ps : List Point) :
    ∀ (inputs : List StreamItem) (reg : Registry) (cc : String),
      (reg.get cc).isSome → (((commandLoop ps inputs reg cc).2.1).get cc).isSome := by
  induction ps with
  | nil => intro inputs reg cc h; simpa [commandLoop] using h
  | cons p ps ih =>
      intro inputs reg cc h
      match inputs with
      | [] => simpa [commandLoop] using h
      | StreamItem.decodeErr :: rest => simpa [commandLoop] using h
      | StreamItem.msg (ClientMessage.ClientOnConnect c) :: rest =>
          simpa [commandLoop] using h
      | StreamItem.msg (ClientMessage.ClientCommandResponse c) :: rest =>
          simpa [commandLoop] using
            ih rest (reg.upsert cc (ClientState.ofCommandResponse c)) cc
              (by simp [Registry.get_upsert_self])
      | StreamItem.msg (ClientMessage.Failed c) :: rest =>
          simp [commandLoop, Registry.get_upsert_self]

theorem commandLoop_lockCheck (ps : List Point) :
    ∀ (inputs : List StreamItem) (reg : Registry) (cc : String),
      lockCheck 0 (commandLoop ps inputs reg cc).1 = true := by
  induction ps with
  | nil => intro inputs reg cc; simp [commandLoop, lockCheck]
  | cons p ps ih =>
      intro inputs reg cc
      match inputs with
      | [] => simp [commandLoop, lockCheck]
      | StreamItem.decodeErr :: rest => simp [commandLoop, lockCheck]
      | StreamItem.msg (ClientMessage.ClientOnConnect c) :: rest =>
          simp [commandLoop, lockCheck]
      | StreamItem.msg (ClientMessage.ClientCommandResponse c) :: rest =>
          simp [commandLoop, lockCheck, ih]
      | StreamItem.msg (ClientMessage.Failed c) :: rest =>
          simp [commandLoop, lockCheck]

theorem commandLoop_altCheck (ps : List Point) :
    ∀ (inputs : List StreamItem) (reg : Registry) (cc : String),
      altCheck 0 (commandLoop ps inputs reg cc).1 = true := by
  induction ps with
  | nil => intro inputs reg cc; simp [commandLoop, altCheck]
  | cons p ps ih =>
      intro inputs reg cc
      match inputs with
      | [] => simp [commandLoop, altCheck]
      | StreamItem.decodeErr :: rest => simp [commandLoop, altCheck]
      | StreamItem.msg (ClientMessage.ClientOnConnect c) :: rest =>
          simp [commandLoop, altCheck]
      | StreamItem.msg (ClientMessage.ClientCommandResponse c) :: rest =>
          simp [commandLoop, altCheck, ih]
      | StreamItem.msg (ClientMessage.Failed c) :: rest =>
          simp [commandLoop, altCheck]

/-- Claim C6: every client envelope variant is projected into the
registry value `{last_message, position}` — `OnConnect` and
`CommandResponse` contribute their `message` field, `Failed` its
reason string (the `server_command` field), all three their position —
and an upsert completely overwrites the prior snapshot for that
identifier while leaving every other identifier untouched. -/
theorem projection_and_overwrite :
    (∀ c : ClientOnConnect, stateOfMsg (ClientMessage.ClientOnConnect c) =
      { last_message := c.message, current_position := c.current_position }) ∧
    (∀ c : ClientCommandResponse, stateOfMsg (ClientMessage.ClientCommandResponse c) =
      { last_message := c.message, current_position := c.current_position }) ∧
    (∀ c : ClientFailed, stateOfMsg (ClientMessage.Failed c) =
      { last_message := c.server_command, current_position := c.current_position }) ∧
    (∀ (reg : Registry) (id : String) (m : ClientMessage) (k : String),
      (reg.upsert id (stateOfMsg m)).get k =
        if k = id then some (stateOfMsg m) else reg.get k) :=
  ⟨fun _ => rfl, fun _ => rfl, fun _ => rfl, fun _ _ _ _ => rfl⟩

/-- Claim C7: the registry is last-write-wins — after `upsert id A`
followed by `upsert id B`, `get id` returns `B`. -/
theorem registry_last_write_wins :
    ∀ (reg : Registry) (id : String) (A B : ClientState),
      ((reg.upsert id A).upsert id B).get id = some B := by
  intro reg id A B
  simp [Registry.get, Registry.upsert]

/-- Claim C1, counterexample: a connection whose first envelope is a
`ClientCommandResponse` is not aborted — the handler writes a
`ServerMoveCommand`, i.e. it enters the command-exchange loop
(`handle_client` has no `else` on its handshake `if let`). -/
theorem handshake_fallthrough_cex :
    Event.send (ServerMessage.ServerMoveCommand pOrigin) ∈
      (handleClient
        [StreamItem.msg (ClientMessage.ClientCommandResponse
          { message := "hi", current_position := pOrigin })]
        Registry.empty).1 := by decide

/-- Claim C1, amended: if the first envelope is any variant other than
`OnConnect`, the handler performs no registry mutation and sends no ack
in the handshake step, but is not aborted — it proceeds into the
command-exchange loop with the empty string as `current_client` and the
registry untouched.  (Stream closure or a decode failure on the first
read still aborts the connection via panic.) -/
theorem handshake_fallthrough :
    ∀ (first : ClientMessage) (rest : List StreamItem) (reg : Registry),
      isOnConnectMsg first = false →
      handleClient (StreamItem.msg first :: rest) reg =
        (Event.recv (StreamItem.msg first) :: (commandLoop movements rest reg "").1,
         (commandLoop movements rest reg "").2) := by
  intro first rest reg h
  cases first with
  | ClientOnConnect c => simp [isOnConnectMsg] at h
  | ClientCommandResponse c => rfl
  | Failed c => rfl

/-- Witness for the amended claim C1 at a concrete `Failed` first frame. -/
theorem handshake_fallthrough_witness :
    handleClient
        [StreamItem.msg (ClientMessage.Failed
          { server_command := "nope", current_position := pOrigin })]
        Registry.empty =
      (Event.recv (StreamItem.msg (ClientMessage.Failed
          { server_command := "nope", current_position := pOrigin })) ::
         (commandLoop movements [] Registry.empty "").1,
       (commandLoop movements [] Registry.empty "").2) :=
  handshake_fallthrough _ _ _ (by decide)

/-- Claim C8: in every run of the connection handler, every critical
section on the registry lock encloses only map operations: each stream
send or receive in the trace happens at lock depth zero, and releases
are balanced. -/
theorem lock_discipline :
    ∀ (inputs : List StreamItem) (reg : Registry),
      lockCheck 0 (handleClient inputs reg).1 = true := by
  intro inputs reg
  match inputs with
  | [] => simp [handleClient, lockCheck]
  | StreamItem.decodeErr :: rest => simp [handleClient, lockCheck]
  | StreamItem.msg (ClientMessage.ClientOnConnect c) :: rest =>
      simp [handleClient, lockCheck, commandLoop_lockCheck]
  | StreamItem.msg (ClientMessage.ClientCommandResponse c) :: rest =>
      simp [handleClient, lockCheck, commandLoop_lockCheck]
  | StreamItem.msg (ClientMessage.Failed c) :: rest =>
      simp [handleClient, lockCheck, commandLoop_lockCheck]

/-- Claim C10: when the first envelope is not `OnConnect`, the handler
enters the command loop with the empty-string identifier: it sends the
first move command, and a following `CommandResponse` or `Failed`
envelope is upserted under the key `""`, which is present in the final
registry. -/
theorem empty_identifier_entry :
    ∀ (first second : ClientMessage) (rest : List StreamItem) (reg : Registry),
      isOnConnectMsg first = false → isOnConnectMsg second = false →
      (handleClient (StreamItem.msg first :: StreamItem.msg second :: rest) reg).1.take 6 =
        [Event.recv (StreamItem.msg first),
         Event.send (ServerMessage.ServerMoveCommand pOrigin),
         Event.recv (StreamItem.msg second),
         Event.lockAcquire,
         Event.regInsert "" (stateOfMsg second),
         Event.lockRelease] ∧
      (((handleClient (StreamItem.msg first :: StreamItem.msg second :: rest) reg).2.1).get "").isSome := by
  intro first second rest reg h1 h2
  cases first with
  | ClientOnConnect c => simp [isOnConnectMsg] at h1
  | ClientCommandResponse c =>
      cases second with
      | ClientOnConnect c' => simp [isOnConnectMsg] at h2
      | ClientCommandResponse c' =>
          constructor
          · simp [handleClient, commandLoop, movements, stateOfMsg, pOrigin]
          · exact commandLoop_preserves_key (movements.drop 1) rest
              (reg.upsert "" (ClientState.ofCommandResponse c')) ""
              (by simp [Registry.get_upsert_self])
      | Failed c' =>
          constructor
          · simp [handleClient, commandLoop, movements, stateOfMsg, pOrigin]
          · have h : ((reg.upsert "" (ClientState.ofFailed c')).get "").isSome := by
              simp [Registry.get_upsert_self]
            exact h
  | Failed c =>
      cases second with
      | ClientOnConnect c' => simp [isOnConnectMsg] at h2
      | ClientCommandResponse c' =>
          constructor
          · simp [handleClient, commandLoop, movements, stateOfMsg, pOrigin]
          · exact commandLoop_preserves_key (movements.drop 1) rest
              (reg.upsert "" (ClientState.ofCommandResponse c')) ""
              (by simp [Registry.get_upsert_self])
      | Failed c' =>
          constructor
          · simp [handleClient, commandLoop, movements, stateOfMsg, pOrigin]
          · have h : ((reg.upsert "" (ClientState.ofFailed c')).get "").isSome := by
              simp [Registry.get_upsert_self]
            exact h

/-- Witness for claim C10 with a `Failed` first frame and a
`CommandResponse` second frame. -/
theorem empty_identifier_entry_witness :
    (handleClient
        [StreamItem.msg (ClientMessage.Failed
           { server_command := "what", current_position := pOrigin }),
         StreamItem.msg (ClientMessage.ClientCommandResponse
           { message := "ok", current_position := pOrigin })]
        Registry.empty).1.take 6 =
      [Event.recv (StreamItem.msg (ClientMessage.Failed
           { server_command := "what", current_position := pOrigin })),
       Event.send (ServerMessage.ServerMoveCommand pOrigin),
       Event.recv (StreamItem.msg (ClientMessage.ClientCommandResponse
           { message := "ok", current_position := pOrigin })),
       Event.lockAcquire,
       Event.regInsert "" (stateOfMsg (ClientMessage.ClientCommandResponse
           { message := "ok", current_position := pOrigin })),
       Event.lockRelease] ∧
    (((handleClient
        [StreamItem.msg (ClientMessage.Failed
           { server_command := "what", current_position := pOrigin }),
         StreamItem.msg (ClientMessage.ClientCommandResponse
           { message := "ok", current_position := pOrigin })]
        Registry.empty).2.1).get "").isSome :=
  empty_identifier_entry _ _ _ _ (by decide) (by decide)

theorem commandLoop_moves_ok (ps : List Point) :
    ∀ (resps : List ClientCommandResponse) (rest : List StreamItem) (reg : Registry)
      (cc : String), resps.length = ps.length →
      movesIn (commandLoop ps (resps.map respItem ++ rest) reg cc).1 = ps := by
  induction ps with
  | nil =>
      intro resps rest reg cc h
      cases resps with
      | nil => simp [commandLoop, movesIn]
      | cons r rs => simp at h
  | cons p ps ih =>
      intro resps rest reg cc h
      cases resps with
      | nil => simp at h
      | cons r rs =>
          have h' : rs.length = ps.length := by simpa using h
          have tail := ih rs rest (reg.upsert cc (ClientState.ofCommandResponse r)) cc h'
          simpa [commandLoop, respItem, movesIn] using tail

/-- Claim C3: against a correctly-responding peer (an `OnConnect`
followed by one `CommandResponse` per command), the sequence of
`ServerMoveCommand` targets written by the handler is exactly the
configured `movements` list — the n-th command carries the n-th element —
and the trace satisfies `altCheck`: no move command is ever written
while a previously written command is still awaiting its response. -/
theorem command_sequence_order :
    ∀ (c : ClientOnConnect) (resps : List ClientCommandResponse) (rest : List StreamItem)
      (reg : Registry), resps.length = movements.length →
      movesIn (handleClient
        (StreamItem.msg (ClientMessage.ClientOnConnect c) :: (resps.map respItem ++ rest))
        reg).1 = movements ∧
      altCheck 0 (handleClient
        (StreamItem.msg (ClientMessage.ClientOnConnect c) :: (resps.map respItem ++ rest))
        reg).1 = true := by
  intro c resps rest reg h
  constructor
  · have tail := commandLoop_moves_ok movements resps rest
      (reg.upsert c.client_name (ClientState.ofOnConnect c)) c.client_name h
    simpa [handleClient, movesIn] using tail
  · have tail := commandLoop_altCheck movements
      (resps.map respItem ++ rest) (reg.upsert c.client_name (ClientState.ofOnConnect c))
      c.client_name
    simpa [handleClient, altCheck] using tail

/-- Witness for claim C3: the concrete all-success session. -/
theorem command_sequence_order_witness :
    movesIn (handleClient
      (StreamItem.msg (ClientMessage.ClientOnConnect
        { client_name := "agent-1", message := "hello", current_position := pOrigin }) ::
        (([{ message := "success", current_position := pOrigin },
           { message := "success", current_position := pOrigin },
           { message := "success", current_position := pOrigin },
           { message := "success", current_position := pOrigin }] :
             List ClientCommandResponse).map respItem ++ []))
      Registry.empty).1 = movements ∧
    altCheck 0 (handleClient
      (StreamItem.msg (ClientMessage.ClientOnConnect
        { client_name := "agent-1", message := "hello", current_position := pOrigin }) ::
        (([{ message := "success", current_position := pOrigin },
           { message := "success", current_position := pOrigin },
           { message := "success", current_position := pOrigin },
           { message := "success", current_position := pOrigin }] :
             List ClientCommandResponse).map respItem ++ []))
      Registry.empty).1 = true :=
  command_sequence_order _ _ _ _ (by decide)

theorem commandLoop_failed (ps : List Point) :
    ∀ (resps : List ClientCommandResponse) (f : ClientFailed) (rest : List StreamItem)
      (reg : Registry) (cc : String), resps.length < ps.length →
      (commandLoop ps (resps.map respItem ++ StreamItem.msg (ClientMessage.Failed f) :: rest)
        reg cc).2.2 = HandlerExit.errClientFailed ∧
      ((commandLoop ps (resps.map respItem ++ StreamItem.msg (ClientMessage.Failed f) :: rest)
        reg cc).2.1).get cc = some (ClientState.ofFailed f) ∧
      (∃ pre, (commandLoop ps
          (resps.map respItem ++ StreamItem.msg (ClientMessage.Failed f) :: rest) reg cc).1 =
        pre ++ [Event.recv (StreamItem.msg (ClientMessage.Failed f)), Event.lockAcquire,
                Event.regInsert cc (ClientState.ofFailed f), Event.lockRelease]) ∧
      (movesIn (commandLoop ps
          (resps.map respItem ++ StreamItem.msg (ClientMessage.Failed f) :: rest) reg cc).1).length =
        resps.length + 1 := by
  induction ps with
  | nil => intro resps f rest reg cc h; simp at h
  | cons p ps ih =>
      intro resps f rest reg cc h
      cases resps with
      | nil =>
          refine ⟨by simp [commandLoop], by simp [commandLoop, Registry.get_upsert_self],
            ⟨[Event.send (ServerMessage.ServerMoveCommand p)], by simp [commandLoop]⟩,
            by simp [commandLoop, movesIn]⟩
      | cons r rs =>
          have h' : rs.length < ps.length := by simpa using Nat.lt_of_succ_lt_succ (by simpa using h)
          obtain ⟨e1, e2, ⟨pre, hpre⟩, e4⟩ :=
            ih rs f rest (reg.upsert cc (ClientState.ofCommandResponse r)) cc h'
          refine ⟨by simpa [commandLoop, respItem] using e1,
            by simpa [commandLoop, respItem] using e2, ?_, ?_⟩
          · refine ⟨Event.send (ServerMessage.ServerMoveCommand p) ::
              Event.recv (respItem r) :: Event.lockAcquire ::
              Event.regInsert cc (ClientState.ofCommandResponse r) :: Event.lockRelease :: pre, ?_⟩
            simp [commandLoop, respItem, hpre]
          · have len := e4
            simp only [commandLoop, respItem] at *
            simpa [movesIn, respItem] using len

/-- Claim C4: if, mid-exchange, the peer answers a command with `Failed`,
the handler upserts the registry entry for the current identifier with
the projected failure state and then terminates with the command-failure
error: the trace ends at that upsert (so no further `ServerMoveCommand`
is written after the `Failed` frame is received), and exactly one more
move command was sent than successful responses were consumed. -/
theorem failed_response_terminates :
    ∀ (c : ClientOnConnect) (resps : List ClientCommandResponse) (f : ClientFailed)
      (rest : List StreamItem) (reg : Registry), resps.length < movements.length →
      (handleClient (StreamItem.msg (ClientMessage.ClientOnConnect c) ::
          (resps.map respItem ++ StreamItem.msg (ClientMessage.Failed f) :: rest))
        reg).2.2 = HandlerExit.errClientFailed ∧
      ((handleClient (StreamItem.msg (ClientMessage.ClientOnConnect c) ::
          (resps.map respItem ++ StreamItem.msg (ClientMessage.Failed f) :: rest))
        reg).2.1).get c.client_name = some (ClientState.ofFailed f) ∧
      (∃ pre, (handleClient (StreamItem.msg (ClientMessage.ClientOnConnect c) ::
          (resps.map respItem ++ StreamItem.msg (ClientMessage.Failed f) :: rest)) reg).1 =
        pre ++ [Event.recv (StreamItem.msg (ClientMessage.Failed f)), Event.lockAcquire,
                Event.regInsert c.client_name (ClientState.ofFailed f), Event.lockRelease]) ∧
      (movesIn (handleClient (StreamItem.msg (ClientMessage.ClientOnConnect c) ::
          (resps.map respItem ++ StreamItem.msg (ClientMessage.Failed f) :: rest)) reg).1).length =
        resps.length + 1 := by
  intro c resps f rest reg h
  obtain ⟨e1, e2, ⟨pre, hpre⟩, e4⟩ := commandLoop_failed movements resps f rest
    (reg.upsert c.client_name (ClientState.ofOnConnect c)) c.client_name h
  refine ⟨by simpa [handleClient] using e1, by simpa [handleClient] using e2, ?_, ?_⟩
  · refine ⟨Event.recv (StreamItem.msg (ClientMessage.ClientOnConnect c)) ::
      Event.lockAcquire :: Event.regInsert c.client_name (ClientState.ofOnConnect c) ::
      Event.lockRelease ::
      Event.send (ServerMessage.OnConnect
        { client_name := c.client_name, message := "hello" }) :: pre, ?_⟩
    simp [handleClient, hpre]
  · simpa [handleClient, movesIn] using e4

/-- Witness for claim C4: the spec's command-failure scenario, the first
command answered with `Failed{reason:"blocked", position:(0,0,0.1)}`. -/
theorem failed_response_terminates_witness :
    (handleClient (StreamItem.msg (ClientMessage.ClientOnConnect
        { client_name := "agent-1", message := "hello", current_position := pOrigin }) ::
        (([] : List ClientCommandResponse).map respItem ++
          StreamItem.msg (ClientMessage.Failed
            { server_command := "blocked",
              current_position := { x := jzero, y := jzero, z := jdec 1 } }) :: []))
      Registry.empty).2.2 = HandlerExit.errClientFailed ∧
    ((handleClient (StreamItem.msg (ClientMessage.ClientOnConnect
        { client_name := "agent-1", message := "hello", current_position := pOrigin }) ::
        (([] : List ClientCommandResponse).map respItem ++
          StreamItem.msg (ClientMessage.Failed
            { server_command := "blocked",
              current_position := { x := jzero, y := jzero, z := jdec 1 } }) :: []))
      Registry.empty).2.1).get "agent-1" = some (ClientState.ofFailed
        { server_command := "blocked",
          current_position := { x := jzero, y := jzero, z := jdec 1 } }) ∧
    (∃ pre, (handleClient (StreamItem.msg (ClientMessage.ClientOnConnect
        { client_name := "agent-1", message := "hello", current_position := pOrigin }) ::
        (([] : List ClientCommandResponse).map respItem ++
          StreamItem.msg (ClientMessage.Failed
            { server_command := "blocked",
              current_position := { x := jzero, y := jzero, z := jdec 1 } }) :: []))
      Registry.empty).1 =
        pre ++ [Event.recv (StreamItem.msg (ClientMessage.Failed
            { server_command := "blocked",
              current_position := { x := jzero, y := jzero, z := jdec 1 } })),
          Event.lockAcquire,
          Event.regInsert "agent-1" (ClientState.ofFailed
            { server_command := "blocked",
              current_position := { x := jzero, y := jzero, z := jdec 1 } }),
          Event.lockRelease]) ∧
    (movesIn (handleClient (StreamItem.msg (ClientMessage.ClientOnConnect
        { client_name := "agent-1", message := "hello", current_position := pOrigin }) ::
        (([] : List ClientCommandResponse).map respItem ++
          StreamItem.msg (ClientMessage.Failed
            { server_command := "blocked",
              current_position := { x := jzero, y := jzero, z := jdec 1 } }) :: []))
      Registry.empty).1).length = ([] : List ClientCommandResponse).length + 1 :=
  failed_response_terminates _ _ _ _ _ (by decide)

theorem clientLoop_responses (inputs : List ServerItem) :
    ∀ pos : Point,
      (clientLoop pos inputs).1 = (movePrefixTargets inputs).map successReply := by
  induction inputs with
  | nil => intro pos; simp [clientLoop, movePrefixTargets]
  | cons it rest ih =>
      intro pos
      cases it with
      | decodeErr => simp [clientLoop, movePrefixTargets]
      | msg m =>
          cases m with
          | OnConnect s => simp [clientLoop, movePrefixTargets]
          | ServerMoveCommand p => simp [clientLoop, movePrefixTargets, successReply, ih]
          | ServerFailed r => simp [clientLoop, movePrefixTargets]

theorem clientLoop_no_failed (inputs : List ServerItem) (pos : Point) :
    ∀ m ∈ (clientLoop pos inputs).1, isFailedMsg m = false := by
  intro m hm
  rw [clientLoop_responses inputs pos] at hm
  obtain ⟨p, _, rfl⟩ := List.mem_map.mp hm
  rfl

/-- Claim C9: the reference client answers every `ServerMoveCommand` with
a `ClientCommandResponse` whose message is exactly `"success"` and whose
position is the commanded target (its `Agent` overwrites its position
with the target before replying), and no message it ever emits — in the
handshake or in the loop — is the `Failed` variant. -/
theorem client_success_protocol :
    ∀ (name : String) (pos : Point) (inputs : List ServerItem),
      ((clientLoop pos inputs).1 = (movePrefixTargets inputs).map successReply) ∧
      (∀ m ∈ (clientRun name pos inputs).1, isFailedMsg m = false) := by
  intro name pos inputs
  refine ⟨clientLoop_responses inputs pos, ?_⟩
  intro m hm
  cases inputs with
  | nil =>
      simp [clientRun] at hm
      simp [hm, isFailedMsg]
  | cons it rest =>
      cases it with
      | decodeErr =>
          simp [clientRun] at hm
          simp [hm, isFailedMsg]
      | msg m' =>
          cases m' with
          | OnConnect s =>
              simp [clientRun] at hm
              rcases hm with rfl | hm
              · rfl
              · exact clientLoop_no_failed rest pos m hm
          | ServerMoveCommand p =>
              simp [clientRun] at hm
              simp [hm, isFailedMsg]
          | ServerFailed r =>
              simp [clientRun] at hm
              simp [hm, isFailedMsg]

/-- Witness for claim C9: a two-frame session (ack, one move command)
whose reply list and non-`Failed` outputs are checked concretely. -/
theorem client_success_protocol_witness :
    ((clientLoop pOrigin [ServerItem.msg (ServerMessage.ServerMoveCommand pOrigin)]).1 =
      (movePrefixTargets [ServerItem.msg (ServerMessage.ServerMoveCommand pOrigin)]).map
        successReply) ∧
    isFailedMsg (successReply pOrigin) = false :=
  ⟨(client_success_protocol "test_client" pOrigin
      [ServerItem.msg (ServerMessage.ServerMoveCommand pOrigin)]).1,
   (client_success_protocol "test_client" pOrigin
      [ServerItem.msg (ServerMessage.OnConnect { client_name := "test_client", message := "x" }),
       ServerItem.msg (ServerMessage.ServerMoveCommand pOrigin)]).2
     (successReply pOrigin) (by decide)⟩

/-- Claim C5, counterexample: in the all-success end-to-end scenario the
first `ServerMoveCommand` the server writes targets `(0,0,0)` — the first
element of the hardcoded `movements` — not `(0,0,0.2)` as claimed. -/
theorem first_move_is_origin_cex :
    (movesIn scenarioOut.1).head? = some pOrigin ∧
    pOrigin ≠ { x := jzero, y := jzero, z := jdec 2 } := by decide

/-- Claim C5, amended: in the end-to-end scenario (client `agent-1`
connects from the origin and answers every command successfully — the
responses are exactly what the reference client's loop produces), the
server replies to the handshake with `OnConnectAck{agent-1, hello}`, the
first `ServerMoveCommand` targets `(0,0,0)`, the full command sequence is
`movements` ending at `(0,0,0.6)`, and the final registry snapshot for
`agent-1` is `{last_message:"success", position:(0,0,0.6)}` with the
handler exiting cleanly. -/
theorem end_to_end_scenario :
    scenarioOut.1.take 5 = [
      Event.recv (StreamItem.msg (ClientMessage.ClientOnConnect
        { client_name := "agent-1", message := "hello", current_position := pOrigin })),
      Event.lockAcquire,
      Event.regInsert "agent-1"
        { last_message := "hello", current_position := pOrigin },
      Event.lockRelease,
      Event.send (ServerMessage.OnConnect
        { client_name := "agent-1", message := "hello" })] ∧
    (movesIn scenarioOut.1).head? = some pOrigin ∧
    movesIn scenarioOut.1 = movements ∧
    scenarioOut.2.1.get "agent-1" = some
      { last_message := "success",
        current_position := { x := jzero, y := jzero, z := jdec 6 } } ∧
    scenarioOut.2.2 = HandlerExit.ok ∧
    scenarioResponses = ((clientLoop pOrigin
      (movements.map fun p => ServerItem.msg (ServerMessage.ServerMoveCommand p))).1).map
        StreamItem.msg := by decide

theorem char_ofNat_toNat (c : Char) : Char.ofNat c.toNat = c := by
  have hv : c.toNat.isValidChar := c.valid
  apply Char.eq_of_val_eq
  apply UInt32.eq_of_toBitVec_eq
  rw [Char.ofNat, dif_pos hv]
  apply BitVec.eq_of_toNat_eq
  simp [Char.ofNatAux, Char.toNat, UInt32.toNat]

theorem charOfCode_toNat (c : Char) : charOfCode c.toNat = some c := by
  have hv : c.toNat.isValidChar := c.valid
  simp [charOfCode, hv, char_ofNat_toNat]

theorem digVal_digCh : ∀ d : Fin 10, digVal (digCh d) = some d := by decide

theorem hexVal_hexCh : ∀ m : Nat, m < 16 → hexVal (hexCh m) = some m := by
  intro m h
  interval_cases m <;> decide

theorem bs_ne_dq : (bs = dq) = False := by decide

theorem u_facts : ('u' = dq) = False ∧ ('u' = bs) = False ∧ ('u' = '/') = False ∧
    ('u' = 'b') = False ∧ ('u' = 'f') = False ∧ ('u' = 'n') = False ∧
    ('u' = 'r') = False ∧ ('u' = 't') = False := by decide

theorem hexVal_d0 : hexVal '0' = some 0 := by decide

theorem psb_quote (rest : List Char) : parseStrBody (dq :: rest) = some ([], rest) := by
  rw [parseStrBody.eq_def]
  simp

theorem psb_esc_dq (rest : List Char) :
    parseStrBody (bs :: dq :: rest) = (parseStrBody rest).map fun r => (dq :: r.1, r.2) := by
  rw [parseStrBody.eq_def]
  simp [show ¬(bs = dq) from by decide]

theorem psb_esc_bs (rest : List Char) :
    parseStrBody (bs :: bs :: rest) = (parseStrBody rest).map fun r => (bs :: r.1, r.2) := by
  rw [parseStrBody.eq_def]
  simp [show ¬(bs = dq) from by decide]

theorem psb_ctrl (c : Char) (h3 : c.toNat < 32) (rest : List Char) :
    parseStrBody (bs :: 'u' :: '0' :: '0' ::
        hexCh (c.toNat / 16) :: hexCh (c.toNat % 16) :: rest) =
      (parseStrBody rest).map fun r => (c :: r.1, r.2) := by
  rw [parseStrBody.eq_def]
  have hx1 : hexVal (hexCh (c.toNat / 16)) = some (c.toNat / 16) := hexVal_hexCh _ (by omega)
  have hx2 : hexVal (hexCh (c.toNat % 16)) = some (c.toNat % 16) := hexVal_hexCh _ (by omega)
  have hco : charOfCode (((0 * 16 + 0) * 16 + c.toNat / 16) * 16 + c.toNat % 16) = some c := by
    rw [show ((0 * 16 + 0) * 16 + c.toNat / 16) * 16 + c.toNat % 16 = c.toNat from by omega]
    exact charOfCode_toNat c
  have hco2 : charOfCode (c.toNat / 16 * 16 + c.toNat % 16) = some c := by
    rw [show c.toNat / 16 * 16 + c.toNat % 16 = c.toNat from by omega]
    exact charOfCode_toNat c
  simp [show ¬(bs = dq) from by decide, show ¬('u' = dq) from by decide,
    show ¬('u' = bs) from by decide, show ¬('u' = '/') from by decide,
    show ¬('u' = 'b') from by decide, show ¬('u' = 'f') from by decide,
    show ¬('u' = 'n') from by decide, show ¬('u' = 'r') from by decide,
    show ¬('u' = 't') from by decide, hexVal_d0, hx1, hx2, hco, hco2]

theorem psb_raw (c : Char) (h1 : ¬(c = dq)) (h2 : ¬(c = bs)) (rest : List Char) :
    parseStrBody (c :: rest) = (parseStrBody rest).map fun r => (c :: r.1, r.2) := by
  rw [parseStrBody.eq_def]
  simp [h1, h2]

theorem parseStrBody_escStr (s : List Char) : ∀ rest : List Char,
    parseStrBody (escStr s ++ dq :: rest) = some (s, rest) := by
  induction s with
  | nil => intro rest; simpa [escStr] using psb_quote rest
  | cons c cs ih =>
      intro rest
      rw [show escStr (c :: cs) = escChar c ++ escStr cs from by simp [escStr],
        List.append_assoc]
      by_cases h1 : c = dq
      · subst h1
        rw [show escChar dq = [bs, dq] from by simp [escChar]]
        simp [psb_esc_dq, ih rest]
      · by_cases h2 : c = bs
        · subst h2
          rw [show escChar bs = [bs, bs] from by
            simp [escChar, show ¬(bs = dq) from by decide]]
          simp [psb_esc_bs, ih rest]
        · by_cases h3 : c.toNat < 32
          · rw [show escChar c =
                [bs, 'u', '0', '0', hexCh (c.toNat / 16), hexCh (c.toNat % 16)] from by
              simp [escChar, h1, h2, h3]]
            simp only [List.cons_append, List.nil_append]
            rw [psb_ctrl c h3, ih rest]
            rfl
          · rw [show escChar c = [c] from by simp [escChar, h1, h2, h3]]
            simp only [List.cons_append, List.nil_append]
            rw [psb_raw c h1 h2, ih rest]
            rfl

theorem takeDigits_app (ds : List (Fin 10)) : ∀ rest : List Char,
    headNotDigit rest = true → takeDigits (ds.map digCh ++ rest) = (ds, rest) := by
  induction ds with
  | nil =>
      intro rest h
      cases rest with
      | nil => rfl
      | cons c cs =>
          have hc : digVal c = none := by
            simpa [headNotDigit, Option.isNone_iff_eq_none] using h
          simp [takeDigits, hc]
  | cons d ds ih =>
      intro rest h
      simp [takeDigits, digVal_digCh, ih rest h]

theorem parseDigits1_app (d : Digits) (rest : List Char) (h : headNotDigit rest = true) :
    parseDigits1 (digitsChars d ++ rest) = some (d, rest) := by
  have : digitsChars d ++ rest = (d.first :: d.rest).map digCh ++ rest := rfl
  rw [this, parseDigits1, takeDigits_app _ _ h]

theorem digCh_facts : ∀ d : Fin 10, ¬(digCh d = '-') ∧ ¬(digCh d = '+') ∧ ¬(digCh d = '.') ∧
    ¬(digCh d = 'e') ∧ ¬(digCh d = 'E') ∧ ¬(digCh d = 'n') ∧ ¬(digCh d = 't') ∧
    ¬(digCh d = 'f') ∧ ¬(digCh d = dq) ∧ ¬(digCh d = '[') ∧ ¬(digCh d = obr) ∧
    (digVal (digCh d)).isSome = true := by decide

theorem afterNum_headNotDigit : ∀ l : List Char, afterNum l = true → headNotDigit l = true := by
  intro l h
  cases l with
  | nil => rfl
  | cons c cs =>
      simp [afterNum] at h
      simp [headNotDigit, h.1]

theorem afterNum_facts (c : Char) (cs : List Char) (h : afterNum (c :: cs) = true) :
    digVal c = none ∧ ¬(c = '.') ∧ ¬(c = 'e') ∧ ¬(c = 'E') ∧
      ¬(c = '-') ∧ ¬(c = '+') := by
  simpa [afterNum, and_assoc] using h

theorem parseFracOpt_skip (input : List Char)
    (h : input = [] ∨ ∃ c cs, input = c :: cs ∧ ¬(c = '.')) :
    parseFracOpt input = some ([], input) := by
  rcases h with rfl | ⟨c, cs, rfl, hc⟩
  · rfl
  · simp [parseFracOpt, hc]

theorem parseFracOpt_frac (f : Fin 10) (fs : List (Fin 10)) (rest : List Char)
    (h : headNotDigit rest = true) :
    parseFracOpt ('.' :: ((f :: fs).map digCh ++ rest)) = some (f :: fs, rest) := by
  have h2 := takeDigits_app (f :: fs) rest h
  simp only [List.map_cons, List.cons_append] at h2
  simp [parseFracOpt, h2]

theorem parseExpOpt_skip (input : List Char)
    (h : input = [] ∨ ∃ c cs, input = c :: cs ∧ ¬(c = 'e') ∧ ¬(c = 'E')) :
    parseExpOpt input = some (none, input) := by
  rcases h with rfl | ⟨c, cs, rfl, hc1, hc2⟩
  · rfl
  · simp [parseExpOpt, hc1, hc2]

theorem parseExpOpt_some (sgn : Bool) (ds : Digits) (rest : List Char)
    (h : headNotDigit rest = true) :
    parseExpOpt ('e' :: ((if sgn then ['-'] else []) ++ (digitsChars ds ++ rest))) =
      some (some (sgn, ds), rest) := by
  cases sgn with
  | true => simp [parseExpOpt, parseExpSign, parseDigits1_app ds rest h]
  | false =>
      have hne1 : ¬(digCh ds.first = '-') := (digCh_facts ds.first).1
      have hne2 : ¬(digCh ds.first = '+') := (digCh_facts ds.first).2.1
      have : (if false then ['-'] else []) ++ (digitsChars ds ++ rest) =
          digCh ds.first :: (ds.rest.map digCh ++ rest) := by simp [digitsChars]
      rw [this]
      simp [parseExpOpt, parseExpSign, hne1, hne2]
      have h2 := parseDigits1_app ds rest h
      rw [show digitsChars ds ++ rest = digCh ds.first :: (ds.rest.map digCh ++ rest) from by
        simp [digitsChars]] at h2
      simp [h2]

theorem parseNum_core (neg : Bool) (ip : Digits) (F E rest : List Char)
    (frac : List (Fin 10)) (ex : Option (Bool × Digits))
    (hT : headNotDigit F = true)
    (hfrac : parseFracOpt F = some (frac, E))
    (hexp : parseExpOpt E = some (ex, rest)) :
    parseNum ((if neg then ['-'] else []) ++ (digitsChars ip ++ F)) =
      some ({ neg := neg, intPart := ip, frac := frac, exp := ex }, rest) := by
  cases neg with
  | true =>
      have e1 : parseIntSign ('-' :: (digitsChars ip ++ F)) = (true, digitsChars ip ++ F) := by
        simp [parseIntSign]
      have e2 : parseDigits1 (digitsChars ip ++ F) = some (ip, F) := parseDigits1_app ip F hT
      simp [parseNum, e1, e2, hfrac, hexp]
  | false =>
      have e1 : parseIntSign (digitsChars ip ++ F) = (false, digitsChars ip ++ F) := by
        rw [show digitsChars ip ++ F = digCh ip.first :: (ip.rest.map digCh ++ F) from by
          simp [digitsChars]]
        simp [parseIntSign, (digCh_facts ip.first).1]
      have e2 : parseDigits1 (digitsChars ip ++ F) = some (ip, F) := parseDigits1_app ip F hT
      simp [parseNum, e1, e2, hfrac, hexp]

theorem parseNum_print (n : JNum) (rest : List Char) (hb : afterNum rest = true) :
    parseNum (printNum n ++ rest) = some (n, rest) := by
  rcases n with ⟨neg, ip, frac, ex⟩
  rcases frac with _ | ⟨f, fs⟩ <;> rcases ex with _ | ⟨sgn, ds⟩
  · -- frac = [], exp = none
    simp only [printNum, List.append_assoc, List.nil_append, List.append_nil]
    refine parseNum_core neg ip rest rest rest [] none
      (afterNum_headNotDigit rest hb) ?_ ?_
    · refine parseFracOpt_skip rest ?_
      cases rest with
      | nil => exact Or.inl rfl
      | cons c cs => exact Or.inr ⟨c, cs, rfl, (afterNum_facts c cs hb).2.1⟩
    · refine parseExpOpt_skip rest ?_
      cases rest with
      | nil => exact Or.inl rfl
      | cons c cs =>
          exact Or.inr ⟨c, cs, rfl, (afterNum_facts c cs hb).2.2.1, (afterNum_facts c cs hb).2.2.2.1⟩
  · -- frac = [], exp = some (sgn, ds)
    simp only [printNum, List.append_assoc, List.nil_append, List.cons_append]
    refine parseNum_core neg ip ('e' :: ((if sgn then ['-'] else []) ++ (digitsChars ds ++ rest)))
      ('e' :: ((if sgn then ['-'] else []) ++ (digitsChars ds ++ rest))) rest [] (some (sgn, ds))
      rfl ?_ ?_
    · refine parseFracOpt_skip _ ?_
      exact Or.inr ⟨'e', _, rfl, by decide⟩
    · exact parseExpOpt_some sgn ds rest (afterNum_headNotDigit rest hb)
  · -- frac = f :: fs, exp = none
    simp only [printNum, List.append_assoc, List.nil_append, List.append_nil, List.cons_append]
    refine parseNum_core neg ip ('.' :: (List.map digCh (f :: fs) ++ rest)) rest rest
      (f :: fs) none rfl ?_ ?_
    · exact parseFracOpt_frac f fs rest (afterNum_headNotDigit rest hb)
    · refine parseExpOpt_skip rest ?_
      cases rest with
      | nil => exact Or.inl rfl
      | cons c cs =>
          exact Or.inr ⟨c, cs, rfl, (afterNum_facts c cs hb).2.2.1, (afterNum_facts c cs hb).2.2.2.1⟩
  · -- frac = f :: fs, exp = some (sgn, ds)
    simp only [printNum, List.append_assoc, List.nil_append, List.cons_append]
    refine parseNum_core neg ip
      ('.' :: (List.map digCh (f :: fs) ++ ('e' :: ((if sgn then ['-'] else []) ++ (digitsChars ds ++ rest)))))
      ('e' :: ((if sgn then ['-'] else []) ++ (digitsChars ds ++ rest))) rest
      (f :: fs) (some (sgn, ds)) rfl ?_ ?_
    · exact parseFracOpt_frac f fs ('e' :: ((if sgn then ['-'] else []) ++ (digitsChars ds ++ rest))) rfl
    · exact parseExpOpt_some sgn ds rest (afterNum_headNotDigit rest hb)

theorem string_mk_data : ∀ s : String, String.mk s.data = s
  | ⟨_⟩ => rfl

theorem parseVal_null (fuel : Nat) (r : List Char) :
    parseVal (fuel + 1) ('n' :: 'u' :: 'l' :: 'l' :: r) = some (Json.jnull, r) := rfl

theorem parseVal_true (fuel : Nat) (r : List Char) :
    parseVal (fuel + 1) ('t' :: 'r' :: 'u' :: 'e' :: r) = some (Json.jbool true, r) := rfl

theorem parseVal_false (fuel : Nat) (r : List Char) :
    parseVal (fuel + 1) ('f' :: 'a' :: 'l' :: 's' :: 'e' :: r) = some (Json.jbool false, r) := rfl

theorem parseVal_str (fuel : Nat) (rest : List Char) :
    parseVal (fuel + 1) (dq :: rest) =
      (parseStrBody rest).map fun r => (Json.jstr ⟨r.1⟩, r.2) := rfl

theorem parseVal_arr_nil (fuel : Nat) (r : List Char) :
    parseVal (fuel + 1) ('[' :: ']' :: r) = some (Json.jarr JList.nil, r) := rfl

theorem parseVal_obj_nil (fuel : Nat) (r : List Char) :
    parseVal (fuel + 1) (obr :: cbr :: r) = some (Json.jobj JFields.fnil, r) := rfl

theorem parseVal_num (fuel : Nat) (c : Char) (cs : List Char)
    (hc : c = '-' ∨ (digVal c).isSome = true)
    (h1 : ¬(c = 'n')) (h2 : ¬(c = 't')) (h3 : ¬(c = 'f')) (h4 : ¬(c = dq))
    (h5 : ¬(c = '[')) (h6 : ¬(c = obr)) :
    parseVal (fuel + 1) (c :: cs) =
      (parseNum (c :: cs)).map fun r => (Json.jnum r.1, r.2) := by
  simp [parseVal, h1, h2, h3, h4, h5, h6, hc]

theorem parseVal_obj (fuel : Nat) (c : Char) (cs : List Char) (h : ¬(c = cbr)) :
    parseVal (fuel + 1) (obr :: c :: cs) =
      (parseMembers fuel (c :: cs)).map fun r => (Json.jobj r.1, r.2) := by
  simp [parseVal, h, show ¬(obr = 'n') from by decide, show ¬(obr = 't') from by decide,
    show ¬(obr = 'f') from by decide, show ¬(obr = dq) from by decide,
    show ¬(obr = '[') from by decide]

theorem parseVal_arr (fuel : Nat) (c : Char) (cs : List Char) (h : ¬(c = ']')) :
    parseVal (fuel + 1) ('[' :: c :: cs) =
      (parseElems fuel (c :: cs)).map fun r => (Json.jarr r.1, r.2) := by
  have h0 : parseVal (fuel + 1) ('[' :: c :: cs) =
      (match c :: cs with
       | ']' :: r => some (Json.jarr JList.nil, r)
       | _ => (parseElems fuel (c :: cs)).map fun r => (Json.jarr r.1, r.2)) := rfl
  rw [h0]
  split
  · rename_i r heq
    rw [List.cons_eq_cons] at heq
    exact absurd heq.1 h
  · rfl

theorem digCh_isSome : ∀ d : Fin 10, (digVal (digCh d)).isSome = true := by decide

theorem digCh_head_facts : ∀ d : Fin 10, ¬(digCh d = 'n') ∧ ¬(digCh d = 't') ∧
    ¬(digCh d = 'f') ∧ ¬(digCh d = dq) ∧ ¬(digCh d = '[') ∧ ¬(digCh d = obr) ∧
    ¬(digCh d = ']') := by decide

theorem printNum_shape (n : JNum) :
    ∃ cs, printNum n = (if n.neg then '-' else digCh n.intPart.first) :: cs := by
  rcases n with ⟨neg, ip, frac, ex⟩
  cases neg with
  | true =>
      exact ⟨digitsChars ip ++
          ((match frac with | [] => [] | f => '.' :: f.map digCh) ++
            (match ex with
             | none => []
             | some (sgn, ds) => 'e' :: ((if sgn then ['-'] else []) ++ digitsChars ds))),
        by simp [printNum, digitsChars, List.append_assoc]⟩
  | false =>
      exact ⟨ip.rest.map digCh ++
          ((match frac with | [] => [] | f => '.' :: f.map digCh) ++
            (match ex with
             | none => []
             | some (sgn, ds) => 'e' :: ((if sgn then ['-'] else []) ++ digitsChars ds))),
        by simp [printNum, digitsChars, List.append_assoc]⟩

theorem printJson_head (j : Json) : ∃ c cs, printJson j = c :: cs ∧ ¬(c = ']') := by
  cases j with
  | jnull => exact ⟨'n', _, rfl, by decide⟩
  | jbool b =>
      cases b with
      | true => exact ⟨'t', _, rfl, by decide⟩
      | false => exact ⟨'f', _, rfl, by decide⟩
  | jnum n =>
      obtain ⟨cs, hshape⟩ := printNum_shape n
      cases hn : n.neg with
      | true =>
          rw [hn] at hshape
          simp at hshape
          exact ⟨'-', cs, by rw [show printJson (Json.jnum n) = printNum n from rfl, hshape],
            by decide⟩
      | false =>
          rw [hn] at hshape
          simp at hshape
          exact ⟨digCh n.intPart.first, cs,
            by rw [show printJson (Json.jnum n) = printNum n from rfl, hshape],
            (digCh_head_facts n.intPart.first).2.2.2.2.2.2⟩
  | jstr s => exact ⟨dq, _, rfl, by decide⟩
  | jarr xs => exact ⟨'[', _, rfl, by decide⟩
  | jobj fs => exact ⟨obr, _, rfl, by decide⟩

theorem jweight_pos (j : Json) : 1 ≤ jweight j := by
  cases j <;> simp only [jweight] <;> omega

theorem lweight_pos (xs : JList) : 1 ≤ lweight xs := by
  cases xs <;> simp only [lweight] <;> omega

theorem fweight_pos (fs : JFields) : 1 ≤ fweight fs := by
  cases fs <;> simp only [fweight] <;> omega

mutual

theorem parseVal_print (j : Json) (fuel : Nat) (rest : List Char)
    (hw : jweight j ≤ fuel) (hb : afterNum rest = true) :
    parseVal fuel (printJson j ++ rest) = some (j, rest) := by
  cases fuel with
  | zero => exact absurd (Nat.le_trans (jweight_pos j) hw) (by omega)
  | succ f =>
      cases j with
      | jnull => exact parseVal_null f rest
      | jbool b =>
          cases b with
          | true => exact parseVal_true f rest
          | false => exact parseVal_false f rest
      | jstr s =>
          have h0 : printJson (Json.jstr s) ++ rest = dq :: (escStr s.data ++ dq :: rest) := by
            rw [show printJson (Json.jstr s) = dq :: (escStr s.data ++ [dq]) from rfl]
            simp
          rw [h0, parseVal_str f _, parseStrBody_escStr s.data rest]
          simp [string_mk_data s]
      | jnum n =>
          obtain ⟨cs, hshape⟩ := printNum_shape n
          cases hn : n.neg with
          | true =>
              rw [hn] at hshape
              simp at hshape
              have h0 : printJson (Json.jnum n) ++ rest = '-' :: (cs ++ rest) := by
                rw [show printJson (Json.jnum n) = printNum n from rfl, hshape]
                rfl
              rw [h0, parseVal_num f '-' (cs ++ rest) (Or.inl rfl) (by decide) (by decide)
                (by decide) (by decide) (by decide) (by decide)]
              have h1 : ('-' :: (cs ++ rest) : List Char) = printNum n ++ rest := by
                rw [hshape]
                rfl
              rw [h1, parseNum_print n rest hb]
              rfl
          | false =>
              rw [hn] at hshape
              simp at hshape
              have h0 : printJson (Json.jnum n) ++ rest =
                  digCh n.intPart.first :: (cs ++ rest) := by
                rw [show printJson (Json.jnum n) = printNum n from rfl, hshape]
                rfl
              rw [h0, parseVal_num f (digCh n.intPart.first) (cs ++ rest)
                (Or.inr (digCh_isSome n.intPart.first))
                (digCh_head_facts n.intPart.first).1 (digCh_head_facts n.intPart.first).2.1
                (digCh_head_facts n.intPart.first).2.2.1
                (digCh_head_facts n.intPart.first).2.2.2.1
                (digCh_head_facts n.intPart.first).2.2.2.2.1
                (digCh_head_facts n.intPart.first).2.2.2.2.2.1]
              have h1 : (digCh n.intPart.first :: (cs ++ rest) : List Char) =
                  printNum n ++ rest := by
                rw [hshape]
                rfl
              rw [h1, parseNum_print n rest hb]
              rfl
      | jarr xs =>
          cases xs with
          | nil => exact parseVal_arr_nil f rest
          | cons v tl =>
              have e1 : jweight (Json.jarr (JList.cons v tl)) =
                  1 + lweight (JList.cons v tl) := rfl
              have hE := parseElems_print v tl f rest (by omega) hb
              have h0 : printJson (Json.jarr (JList.cons v tl)) ++ rest =
                  '[' :: (printElems (JList.cons v tl) ++ rest) := by
                rw [show printJson (Json.jarr (JList.cons v tl)) =
                  '[' :: printElems (JList.cons v tl) from rfl]
                rfl
              obtain ⟨c, cs, hpr, hcrb⟩ := printJson_head v
              have hhead : ∃ cs', printElems (JList.cons v tl) ++ rest = c :: cs' := by
                cases tl with
                | nil =>
                    refine ⟨cs ++ ([']'] ++ rest), ?_⟩
                    rw [show printElems (JList.cons v JList.nil) = printJson v ++ [']'] from rfl,
                      hpr]
                    simp
                | cons v2 tl2 =>
                    refine ⟨cs ++ (',' :: printElems (JList.cons v2 tl2) ++ rest), ?_⟩
                    rw [show printElems (JList.cons v (JList.cons v2 tl2)) =
                      printJson v ++ ',' :: printElems (JList.cons v2 tl2) from rfl, hpr]
                    simp
              obtain ⟨cs', hcs'⟩ := hhead
              rw [h0, hcs', parseVal_arr f c cs' hcrb, ← hcs', hE]
              rfl
      | jobj fs =>
          cases fs with
          | fnil => exact parseVal_obj_nil f rest
          | fcons k v tl =>
              have e1 : jweight (Json.jobj (JFields.fcons k v tl)) =
                  1 + fweight (JFields.fcons k v tl) := rfl
              have hM := parseMembers_print k v tl f rest (by omega) hb
              have h0 : printJson (Json.jobj (JFields.fcons k v tl)) ++ rest =
                  obr :: (printMembers (JFields.fcons k v tl) ++ rest) := by
                rw [show printJson (Json.jobj (JFields.fcons k v tl)) =
                  obr :: printMembers (JFields.fcons k v tl) from rfl]
                rfl
              have hhead : ∃ cs', printMembers (JFields.fcons k v tl) ++ rest = dq :: cs' := by
                cases tl with
                | fnil => exact ⟨_, rfl⟩
                | fcons k2 v2 tl2 => exact ⟨_, rfl⟩
              obtain ⟨cs', hcs'⟩ := hhead
              rw [h0, hcs', parseVal_obj f dq cs' (by decide), ← hcs', hM]
              rfl
termination_by sizeOf j

theorem parseElems_print (v : Json) (tl : JList) (fuel : Nat) (rest : List Char)
    (hw : lweight (JList.cons v tl) ≤ fuel) (hb : afterNum rest = true) :
    parseElems fuel (printElems (JList.cons v tl) ++ rest) = some (JList.cons v tl, rest) := by
  cases fuel with
  | zero => exact absurd (Nat.le_trans (lweight_pos _) hw) (by omega)
  | succ f =>
      have e1 : lweight (JList.cons v tl) = 1 + jweight v + lweight tl := rfl
      have h0 : ∀ inp : List Char, parseElems (f + 1) inp =
          (match parseVal f inp with
           | none => none
           | some (v', rest') =>
               match rest' with
               | ']' :: r => some (JList.cons v' JList.nil, r)
               | ',' :: r => (parseElems f r).map fun r' => (JList.cons v' r'.1, r'.2)
               | _ => none) := fun _ => rfl
      cases tl with
      | nil =>
          have e2 : lweight JList.nil = 1 := rfl
          have hv := parseVal_print v f (']' :: rest) (by omega) rfl
          have h1 : printElems (JList.cons v JList.nil) ++ rest =
              printJson v ++ (']' :: rest) := by
            rw [show printElems (JList.cons v JList.nil) = printJson v ++ [']'] from rfl]
            simp
          rw [h1, h0, hv]
          rfl
      | cons v2 tl2 =>
          have e2 : lweight (JList.cons v2 tl2) = 1 + jweight v2 + lweight tl2 := rfl
          have hv := parseVal_print v f
            (',' :: (printElems (JList.cons v2 tl2) ++ rest)) (by omega) rfl
          have hrec := parseElems_print v2 tl2 f rest (by omega) hb
          have h1 : printElems (JList.cons v (JList.cons v2 tl2)) ++ rest =
              printJson v ++ (',' :: (printElems (JList.cons v2 tl2) ++ rest)) := by
            rw [show printElems (JList.cons v (JList.cons v2 tl2)) =
              printJson v ++ ',' :: printElems (JList.cons v2 tl2) from rfl]
            simp
          rw [h1, h0, hv]
          simp [hrec]
termination_by sizeOf (JList.cons v tl)

theorem parseMembers_print (k : String) (v : Json) (tl : JFields) (fuel : Nat)
    (rest : List Char) (hw : fweight (JFields.fcons k v tl) ≤ fuel)
    (hb : afterNum rest = true) :
    parseMembers fuel (printMembers (JFields.fcons k v tl) ++ rest) =
      some (JFields.fcons k v tl, rest) := by
  cases fuel with
  | zero => exact absurd (Nat.le_trans (fweight_pos _) hw) (by omega)
  | succ f =>
      have e1 : fweight (JFields.fcons k v tl) = 1 + jweight v + fweight tl := rfl
      have h0 : ∀ Y : List Char, parseMembers (f + 1) (dq :: Y) =
          (match parseStrBody Y with
           | none => none
           | some (k', rest1) =>
               match rest1 with
               | ':' :: rest2 =>
                   match parseVal f rest2 with
                   | none => none
                   | some (v', rest3) =>
                       match rest3 with
                       | r0 :: r =>
                           if r0 = cbr then some (JFields.fcons ⟨k'⟩ v' JFields.fnil, r)
                           else if r0 = ',' then
                             (parseMembers f r).map fun r' => (JFields.fcons ⟨k'⟩ v' r'.1, r'.2)
                           else none
                       | [] => none
               | _ => none) := fun _ => rfl
      cases tl with
      | fnil =>
          have e2 : fweight JFields.fnil = 1 := rfl
          have hv := parseVal_print v f (cbr :: rest) (by omega) rfl
          have h1 : printMembers (JFields.fcons k v JFields.fnil) ++ rest =
              dq :: (escStr k.data ++ dq :: (':' :: (printJson v ++ (cbr :: rest)))) := by
            rw [show printMembers (JFields.fcons k v JFields.fnil) =
              dq :: (escStr k.data ++ dq :: ':' :: (printJson v ++ [cbr])) from rfl]
            simp
          rw [h1, h0, parseStrBody_escStr k.data (':' :: (printJson v ++ (cbr :: rest)))]
          simp [hv, string_mk_data]
      | fcons k2 v2 tl2 =>
          have e2 : fweight (JFields.fcons k2 v2 tl2) = 1 + jweight v2 + fweight tl2 := rfl
          have hv := parseVal_print v f
            (',' :: (printMembers (JFields.fcons k2 v2 tl2) ++ rest)) (by omega) rfl
          have hrec := parseMembers_print k2 v2 tl2 f rest (by omega) hb
          have h1 : printMembers (JFields.fcons k v (JFields.fcons k2 v2 tl2)) ++ rest =
              dq :: (escStr k.data ++ dq :: (':' ::
                (printJson v ++ (',' :: (printMembers (JFields.fcons k2 v2 tl2) ++ rest))))) := by
            rw [show printMembers (JFields.fcons k v (JFields.fcons k2 v2 tl2)) =
              dq :: (escStr k.data ++ dq :: ':' ::
                (printJson v ++ ',' :: printMembers (JFields.fcons k2 v2 tl2))) from rfl]
            simp
          rw [h1, h0, parseStrBody_escStr k.data
            (':' :: (printJson v ++ (',' :: (printMembers (JFields.fcons k2 v2 tl2) ++ rest))))]
          simp [hv, hrec, string_mk_data, show ¬(',' = cbr) from by decide]
termination_by sizeOf (JFields.fcons k v tl)

end

theorem printNum_len_pos (n : JNum) : 1 ≤ (printNum n).length := by
  rcases n with ⟨neg, ip, frac, ex⟩
  cases neg <;> simp [printNum, digitsChars]

mutual

theorem jweight_le (j : Json) : jweight j ≤ 2 * (printJson j).length := by
  cases j with
  | jnull => decide
  | jbool b => cases b <;> decide
  | jnum n =>
      have h1 := printNum_len_pos n
      have h2 : printJson (Json.jnum n) = printNum n := rfl
      have h3 : jweight (Json.jnum n) = 1 := rfl
      rw [h2, h3]
      omega
  | jstr s =>
      have h2 : printJson (Json.jstr s) = dq :: (escStr s.data ++ [dq]) := rfl
      have h3 : jweight (Json.jstr s) = 1 := rfl
      rw [h2, h3]
      simp
      omega
  | jarr xs =>
      have ih := lweight_le xs
      have h2 : printJson (Json.jarr xs) = '[' :: printElems xs := rfl
      have h3 : jweight (Json.jarr xs) = 1 + lweight xs := rfl
      rw [h2, h3]
      simp only [List.length_cons]
      omega
  | jobj fs =>
      have ih := fweight_le fs
      have h2 : printJson (Json.jobj fs) = obr :: printMembers fs := rfl
      have h3 : jweight (Json.jobj fs) = 1 + fweight fs := rfl
      rw [h2, h3]
      simp only [List.length_cons]
      omega
termination_by sizeOf j

theorem lweight_le (xs : JList) : lweight xs ≤ 2 * (printElems xs).length := by
  cases xs with
  | nil => decide
  | cons v tl =>
      have ihv := jweight_le v
      have e1 : lweight (JList.cons v tl) = 1 + jweight v + lweight tl := rfl
      cases tl with
      | nil =>
          have h2 : printElems (JList.cons v JList.nil) = printJson v ++ [']'] := rfl
          have e2 : lweight JList.nil = 1 := rfl
          rw [e1, h2, e2]
          simp only [List.length_append, List.length_cons, List.length_nil]
          omega
      | cons v2 tl2 =>
          have ihtl := lweight_le (JList.cons v2 tl2)
          have h2 : printElems (JList.cons v (JList.cons v2 tl2)) =
              printJson v ++ ',' :: printElems (JList.cons v2 tl2) := rfl
          rw [e1, h2]
          simp only [List.length_append, List.length_cons]
          omega
termination_by sizeOf xs

theorem fweight_le (fs : JFields) : fweight fs ≤ 2 * (printMembers fs).length := by
  cases fs with
  | fnil => decide
  | fcons k v tl =>
      have ihv := jweight_le v
      have e1 : fweight (JFields.fcons k v tl) = 1 + jweight v + fweight tl := rfl
      cases tl with
      | fnil =>
          have h2 : printMembers (JFields.fcons k v JFields.fnil) =
              dq :: (escStr k.data ++ dq :: ':' :: (printJson v ++ [cbr])) := rfl
          have e2 : fweight JFields.fnil = 1 := rfl
          rw [e1, h2, e2]
          simp only [List.length_append, List.length_cons, List.length_nil]
          omega
      | fcons k2 v2 tl2 =>
          have ihtl := fweight_le (JFields.fcons k2 v2 tl2)
          have h2 : printMembers (JFields.fcons k v (JFields.fcons k2 v2 tl2)) =
              dq :: (escStr k.data ++ dq :: ':' ::
                (printJson v ++ ',' :: printMembers (JFields.fcons k2 v2 tl2))) := rfl
          rw [e1, h2]
          simp only [List.length_append, List.length_cons]
          omega
termination_by sizeOf fs

end

theorem fromJson_toJson_client : ∀ e : ClientMessage,
    ClientMessage.fromJson e.toJson = some e := by
  intro e
  cases e <;> rfl

theorem fromJson_toJson_server : ∀ e : ServerMessage,
    ServerMessage.fromJson e.toJson = some e := by
  intro e
  cases e <;> rfl

theorem charsOfCodes_map (l : List Char) :
    charsOfCodes (l.map Char.toNat) = some l := by
  induction l with
  | nil => rfl
  | cons c cs ih => simp [charsOfCodes, charOfCode_toNat, ih]

theorem decodeFrame_encodeFrame (payload : List Char) (bytes : List Nat)
    (h : encodeFrame payload = some bytes) : decodeFrame bytes = some (payload, []) := by
  unfold encodeFrame at h
  split at h
  · rename_i hlen
    have hb : bytes = be32 payload.length ++ payload.map Char.toNat := by
      exact (Option.some.inj h).symm
    subst hb
    have hL : payload.length ≤ maxFrameLen := hlen
    have hlt : payload.length < 2 ^ 32 := by
      have : maxFrameLen = 8 * 1024 * 1024 := rfl
      omega
    have hn : ((payload.length / 2 ^ 24 % 256 * 256 + payload.length / 2 ^ 16 % 256) * 256 +
        payload.length / 2 ^ 8 % 256) * 256 + payload.length % 256 = payload.length := by
      omega
    have h0 : decodeFrame (be32 payload.length ++ payload.map Char.toNat) =
        (if ((payload.length / 2 ^ 24 % 256 * 256 + payload.length / 2 ^ 16 % 256) * 256 +
              payload.length / 2 ^ 8 % 256) * 256 + payload.length % 256 ≤ maxFrameLen ∧
            ((payload.length / 2 ^ 24 % 256 * 256 + payload.length / 2 ^ 16 % 256) * 256 +
              payload.length / 2 ^ 8 % 256) * 256 + payload.length % 256 ≤
              (payload.map Char.toNat).length then
          match charsOfCodes ((payload.map Char.toNat).take
              (((payload.length / 2 ^ 24 % 256 * 256 + payload.length / 2 ^ 16 % 256) * 256 +
                payload.length / 2 ^ 8 % 256) * 256 + payload.length % 256)) with
          | some p => some (p, (payload.map Char.toNat).drop
              (((payload.length / 2 ^ 24 % 256 * 256 + payload.length / 2 ^ 16 % 256) * 256 +
                payload.length / 2 ^ 8 % 256) * 256 + payload.length % 256))
          | none => none
        else none) := rfl
    rw [h0, hn]
    have hml : (payload.map Char.toNat).length = payload.length := by simp
    rw [if_pos ⟨hL, by omega⟩]
    rw [show (payload.map Char.toNat).take payload.length = payload.map Char.toNat from by
      rw [← hml]; exact List.take_length _]
    rw [charsOfCodes_map]
    rw [show (payload.map Char.toNat).drop payload.length = [] from by
      rw [← hml]; exact List.drop_length _]
  · exact absurd h (by simp)

/-- Claim C2: for every envelope value of either direction's tagged
union, decoding the length-prefixed JSON frame produced by encoding it
yields the same envelope (whenever the encoder accepts the payload,
i.e. it fits the codec's 8 MiB frame cap). -/
theorem frame_roundtrip :
    (∀ (e : ClientMessage) (bytes : List Nat),
        encodeClientFrame e = some bytes → decodeClientFrame bytes = some e) ∧
    (∀ (e : ServerMessage) (bytes : List Nat),
        encodeServerFrame e = some bytes → decodeServerFrame bytes = some e) := by
  constructor
  · intro e bytes h
    have hdf := decodeFrame_encodeFrame (printJson e.toJson) bytes h
    have hp := parseVal_print e.toJson (2 * (printJson e.toJson).length + 1) []
      (by have := jweight_le e.toJson; omega) rfl
    simp only [List.append_nil] at hp
    simp only [decodeClientFrame]
    rw [hdf]
    simp [hp, fromJson_toJson_client]
  · intro e bytes h
    have hdf := decodeFrame_encodeFrame (printJson e.toJson) bytes h
    have hp := parseVal_print e.toJson (2 * (printJson e.toJson).length + 1) []
      (by have := jweight_le e.toJson; omega) rfl
    simp only [List.append_nil] at hp
    simp only [decodeServerFrame]
    rw [hdf]
    simp [hp, fromJson_toJson_server]

/-- Witness for claim C2: concrete envelopes of both directions encoded
and decoded back. -/
theorem frame_roundtrip_witness :
    decodeClientFrame ((encodeClientFrame (ClientMessage.ClientOnConnect
        { client_name := "agent-1", message := "hello",
          current_position := pOrigin })).getD []) =
      some (ClientMessage.ClientOnConnect
        { client_name := "agent-1", message := "hello", current_position := pOrigin }) ∧
    decodeServerFrame ((encodeServerFrame
        (ServerMessage.ServerMoveCommand pOrigin)).getD []) =
      some (ServerMessage.ServerMoveCommand pOrigin) :=
  ⟨frame_roundtrip.1 _ _ (by decide), frame_roundtrip.2 _ _ (by decide)⟩
